import Mathlib

/-!
# Verification of the Horizon Board Producer plate-derivation algorithm

A shallow embedding of `horizon-board-producer-plugin.py` (KiCad action
plugin).  The plugin derives "plate" boards from a source board
(`__create_plate_pcb_from_layer`) and orchestrates artifact generation for
the source board and each derived plate (`produce`).

Modelling conventions:
* Layer identifiers are modelled by their canonical layer-name strings.
  `pcbnew.BOARD.GetLayerID` (host API, not part of this repository's
  sources) is modelled from the spec: resolving a name that exists on the
  board yields the identifier, an unresolvable name is a fatal error.
* Host entity classes (`BOARD`, `FOOTPRINT`, `PAD`, drawings) are modelled
  as records carrying exactly the attributes the plugin reads or writes.
* Fallible computations live in `Except String`; filesystem writes
  (`Save`, gerber/drill/zip emission) are out of scope and are modelled
  only through the file names / abstract generator the orchestrator uses.
* Machine coordinates are modelled as `Int` (KiCad uses exact integer
  nanometre coordinates; no floating point is involved in the code paths
  modelled here, the only float — `GetArea()` — is an exact product of two
  integers compared against zero).
-/

namespace HorizonBoardProducer

/-! ## String path helpers

Models of the `os.path` / `str` operations the plugin uses:
`os.path.split`, `os.path.join`, and `str.replace`. -/

/-- One scanning step budgeted by `fuel` (each step consumes at least one
character, so a budget of the string's length is always enough; the budget
makes the recursion structural, so that it computes by kernel
reduction). -/
def replaceFromAux (pat rep : List Char) : Nat → List Char → List Char
  | _, [] => []
  | 0, s => s
  | fuel + 1, c :: s' =>
    if pat ≠ [] ∧ pat.isPrefixOf (c :: s') then
      rep ++ replaceFromAux pat rep fuel ((c :: s').drop pat.length)
    else
      c :: replaceFromAux pat rep fuel s'

/-- Model of Python `str.replace` restricted to a non-empty pattern (the
plugin only ever replaces the literal `".kicad_pcb"`): every non-overlapping
occurrence of `pat` is replaced by `rep`, scanning left to right.  For an
empty pattern this model returns the string unchanged (the plugin never
hits that case). -/
def replaceFrom (s pat rep : List Char) : List Char :=
  replaceFromAux pat rep s.length s

/-- Model of Python `str.replace` on `String`s. -/
def strReplace (s pat rep : String) : String :=
  String.mk (replaceFrom s.toList pat.toList rep.toList)

/-- Whether `pat` occurs as a contiguous substring of `s`
(model of Python `pat in s`). -/
def hasSubstr (s pat : List Char) : Bool :=
  match s, pat with
  | _, [] => true
  | [], _ => false
  | _ :: s', _ => pat.isPrefixOf s || hasSubstr s' pat

/-- The final path component, i.e. the second component of
`os.path.split` (POSIX separators). -/
def baseNameChars (cs : List Char) : List Char :=
  cs.foldl (fun acc c => if c = '/' then [] else acc ++ [c]) []

/-- The final path component of a file name. -/
def baseName (s : String) : String :=
  String.mk (baseNameChars s.toList)

/-- The directory component, i.e. the first component of
`os.path.split` (POSIX separators, no trailing separator). -/
def dirName (s : String) : String :=
  String.mk (((s.toList.reverse.dropWhile (fun c => c ≠ '/')).drop 1).reverse)

/-- Model of `os.path.join` for the shapes the plugin uses
(relative second component). -/
def pathJoin (a b : String) : String :=
  if a = "" then b
  else if a.toList.getLast? = some '/' then a ++ b
  else a ++ "/" ++ b

/-- Equality of `Except` results is decidable componentwise (needed to
evaluate the embedding on concrete inputs). -/
instance {ε α : Type} [DecidableEq ε] [DecidableEq α] :
    DecidableEq (Except ε α) := fun x y =>
  match x, y with
  | Except.ok a, Except.ok b =>
    if h : a = b then Decidable.isTrue (by rw [h])
    else Decidable.isFalse (by intro hc; cases hc; exact h rfl)
  | Except.error e, Except.error e' =>
    if h : e = e' then Decidable.isTrue (by rw [h])
    else Decidable.isFalse (by intro hc; cases hc; exact h rfl)
  | Except.ok _, Except.error _ => Decidable.isFalse (by intro hc; cases hc)
  | Except.error _, Except.ok _ => Decidable.isFalse (by intro hc; cases hc)

/-! ## Geometry model -/

/-- An axis-aligned bounding box, stored by its two corners
(model of `BOX2I`). -/
structure BBox where
  x1 : Int
  y1 : Int
  x2 : Int
  y2 : Int
deriving DecidableEq, Repr

/-- `BOX2I.GetArea`: width times height.  The plugin compares it against
zero. -/
def BBox.area (b : BBox) : Int :=
  (b.x2 - b.x1) * (b.y2 - b.y1)

/-- `BOX2I.Intersects`: the boxes share at least a point (touching
counts). -/
def BBox.intersects (a b : BBox) : Bool :=
  max a.x1 b.x1 ≤ min a.x2 b.x2 && max a.y1 b.y1 ≤ min a.y2 b.y2

/-- `BOX2I.Merge`: smallest box containing both. -/
def BBox.merge (a b : BBox) : BBox :=
  ⟨min a.x1 b.x1, min a.y1 b.y1, max a.x2 b.x2, max a.y2 b.y2⟩

/-! ## Board entity model -/

/-- The `GetClass()` tag of a board-level drawing: `'PCB_SHAPE'` for shape
geometry, `'PTEXT'` for board text, and a catch-all for every other
drawing class. -/
inductive DrawingClass where
  | pcbShape
  | ptext
  | otherClass
deriving DecidableEq, Repr

/-- A board-level drawing (`BOARD.GetDrawings()` item): the plugin reads
its class tag and layer, rewrites its layer, and (via
`GetBoardEdgesBoundingBox`) its bounding box. -/
structure Drawing where
  klass : DrawingClass
  layer : String
  box : BBox
deriving DecidableEq, Repr

/-- `PAD.GetShape()`: circle and oval are the shapes the plugin converts;
everything else is the catch-all. -/
inductive PadShape where
  | circle
  | oval
  | otherShape
deriving DecidableEq, Repr

/-- `PAD.GetDrillShape()` values used by the plugin. -/
inductive DrillShape where
  | circle
  | oblong
deriving DecidableEq, Repr

/-- `PAD.GetAttribute()` values (`PAD_ATTRIB`): plated through hole, SMD,
edge connector, and non-plated through hole. -/
inductive PadAttrib where
  | pth
  | smd
  | conn
  | npth
deriving DecidableEq, Repr

/-- A pad of a footprint, carrying exactly the attributes the plugin reads
(`IsOnLayer`, `GetShape`, `GetSize`, `GetPosition`) or writes
(`SetAttribute`, `SetDrillShape`, `SetDrillSize`, `SetLayerSet`,
`SetPosition`). -/
structure Pad where
  layers : List String
  shape : PadShape
  size : Int × Int
  position : Int × Int
  attrib : PadAttrib
  drillShape : DrillShape
  drillSize : Int × Int
deriving DecidableEq, Repr

instance : Inhabited Pad where
  default :=
    { layers := [], shape := PadShape.otherShape, size := (0, 0),
      position := (0, 0), attrib := PadAttrib.pth,
      drillShape := DrillShape.circle, drillSize := (0, 0) }

/-- A graphical item of a footprint (`FOOTPRINT.GraphicalItems()` item):
the plugin reads and rewrites only its layer. -/
structure FPGraphic where
  layer : String
deriving DecidableEq, Repr

instance : Inhabited FPGraphic := ⟨⟨""⟩⟩

/-- A footprint: reference designator, position, bounding box, pads, and
graphical items. -/
structure Footprint where
  reference : String
  position : Int × Int
  box : BBox
  pads : List Pad
  graphics : List FPGraphic
deriving DecidableEq, Repr

/-- A board: file name, the set of resolvable layer names, board-level
drawings, and footprints. -/
structure Board where
  fileName : String
  layerNames : List String
  drawings : List Drawing
  footprints : List Footprint
deriving DecidableEq, Repr

/-- The canonical layer names of a freshly created KiCad board
(`pcbnew.NewBoard` boards carry the standard layer stack). -/
def standardLayers : List String :=
  ["F.Cu", "B.Cu", "F.Adhesive", "B.Adhesive", "F.Paste", "B.Paste",
   "F.Silkscreen", "B.Silkscreen", "F.Mask", "B.Mask", "Dwgs.User",
   "Cmts.User", "Eco1.User", "Eco2.User", "Edge.Cuts", "Margin",
   "F.Courtyard", "B.Courtyard", "F.Fab", "B.Fab"]

/-- Modelled from the spec: `pcbnew.BOARD.GetLayerID` (Geometry/Layer
Model, host API whose implementation is not part of this repository's
sources).  Per the spec, resolving a layer name that exists on the board
yields its identifier, and an unresolvable layer name is a fatal
(contract-violation) error. -/
def getLayerID (b : Board) (name : String) : Except String String :=
  if b.layerNames.contains name then Except.ok name
  else Except.error ("unresolvable layer: " ++ name)

/-- `pcbnew.NewBoard path`: a fresh, empty board with the standard layer
stack. -/
def newBoard (path : String) : Board :=
  ⟨path, standardLayers, [], []⟩

/-- Bounding box of a list of drawings restricted to the edge-cut layer
(model of `BOARD.GetBoardEdgesBoundingBox`; a board with no edge-cut
geometry yields the degenerate box at the origin).  The plugin evaluates
this before any footprint is added to the plate, so only board-level
drawings contribute at the call site. -/
def edgesBBox (ds : List Drawing) : BBox :=
  match ds.filter (fun d => d.layer == "Edge.Cuts") with
  | [] => ⟨0, 0, 0, 0⟩
  | d :: rest => rest.foldl (fun acc e => acc.merge e.box) d.box

/-! ## Plate derivation: per-item policy (pure form)

These are the branch bodies of `__create_plate_pcb_from_layer`'s loops,
written as pure per-item functions after layer-name resolution has
succeeded.  The `Except`-level loop functions below mirror the source's
control flow (including per-iteration layer resolution) and are proven to
agree with these. -/

/-- The plate `.kicad_pcb` base file name: line 138's
`board_filename.replace('.kicad_pcb', '-' + plate_file_name_suffix + '.kicad_pcb')`. -/
def plateFileName (boardFileName suffix : String) : String :=
  strReplace (baseName boardFileName) ".kicad_pcb" ("-" ++ suffix ++ ".kicad_pcb")

/-- The full path of the plate `.kicad_pcb` file (line 138). -/
def platePath (outputFolder boardFileName suffix : String) : String :=
  pathJoin outputFolder (plateFileName boardFileName suffix)

/-- Per-drawing policy of the drawing loop (lines 142-148): shape geometry
on the reference layer is remapped to the edge-cut layer; silkscreen text
is copied unchanged; everything else is skipped. -/
def copyDrawing (layerName : String) (d : Drawing) : Option Drawing :=
  if d.layer == layerName && d.klass == DrawingClass.pcbShape then
    some { d with layer := "Edge.Cuts" }
  else if (d.layer == "F.Silkscreen" || d.layer == "B.Silkscreen")
      && d.klass == DrawingClass.ptext then
    some d
  else
    none

/-- Per-pad policy of the pad loop (lines 166-176): a circle or oval pad on
the reference layer becomes an unplated (NPTH) hole — drill shape mirrors
the pad shape, drill size is the pad's outline size, the layer set becomes
the unplated-hole mask, position unchanged; every other pad is removed. -/
def convertPad (layerName : String) (unplatedMask : List String) (p : Pad) :
    Option Pad :=
  if p.layers.contains layerName
      && (p.shape == PadShape.circle || p.shape == PadShape.oval) then
    some { p with
      attrib := PadAttrib.npth
      drillShape :=
        if p.shape == PadShape.circle then DrillShape.circle
        else DrillShape.oblong
      drillSize := p.size
      layers := unplatedMask
      position := p.position }
  else
    none

/-- The fixed layer set of `PAD.UnplatedHoleMask()` (host API constant):
the copper and solder-mask faces an unplated hole pierces. -/
def unplatedHoleMask : List String :=
  ["F.Cu", "B.Cu", "F.Mask", "B.Mask"]

/-- Per-graphic policy of the graphics loop (lines 177-181): a graphical
item on the reference layer is remapped to the edge-cut layer; every other
graphical item is removed. -/
def convertGraphic (layerName : String) (g : FPGraphic) : Option FPGraphic :=
  if g.layer == layerName then some { g with layer := "Edge.Cuts" }
  else none

/-- The content filter applied to the duplicate of an ordinary footprint
(lines 165-182): keep converted pads and remapped graphics, drop the
rest. -/
def filterFootprint (layerName : String) (f : Footprint) : Footprint :=
  { f with
    pads := f.pads.filterMap (convertPad layerName unplatedHoleMask)
    graphics := f.graphics.filterMap (convertGraphic layerName) }

/-- One or more ASCII digits. -/
def allDigits1 : List Char → Bool
  | [] => false
  | cs => cs.all Char.isDigit

/-- Model of `re.match(r'^(H|LOGO)\d+$', s)` (line 159): `H` or `LOGO`
followed by one or more digits, matching the whole string. -/
def isPreservedRef (s : String) : Bool :=
  match s.toList with
  | 'H' :: rest => allDigits1 rest
  | 'L' :: 'O' :: 'G' :: 'O' :: rest => allDigits1 rest
  | _ => false

/-- Per-footprint policy of the footprint loop (lines 156-183): a
footprint is considered only if its bounding box intersects the plate
bounds; a preserved-whole (`H<digits>`/`LOGO<digits>`) footprint is copied
unchanged; an ordinary footprint is filtered and kept only if some pad or
graphical item survives. -/
def processFootprint (layerName : String) (bounds : BBox) (f : Footprint) :
    Option Footprint :=
  if f.box.intersects bounds then
    if isPreservedRef f.reference then some f
    else if (filterFootprint layerName f).pads.length > 0
        || (filterFootprint layerName f).graphics.length > 0 then
      some (filterFootprint layerName f)
    else none
  else
    none

/-! ## Plate derivation: the source's control flow

`__create_plate_pcb_from_layer` resolves layer names through the host
board inside each loop iteration; these functions mirror that control flow
in `Except String`. -/

/-- The drawing loop (lines 142-148): for each source drawing, duplicate
it; shape geometry on the reference layer is remapped to the edge-cut
layer and added, silkscreen text is added unchanged, everything else is
dropped.  Layer names are resolved against the plate per iteration, as in
the source. -/
def copyDrawings (plate : Board) (layerName : String) :
    List Drawing → Except String (List Drawing)
  | [] => Except.ok []
  | d :: rest => do
    let refId ← getLayerID plate layerName
    let hd ←
      if d.layer == refId && d.klass == DrawingClass.pcbShape then do
        let edgeId ← getLayerID plate "Edge.Cuts"
        pure [{ d with layer := edgeId }]
      else do
        let fSilk ← getLayerID plate "F.Silkscreen"
        let bSilk ← getLayerID plate "B.Silkscreen"
        if (d.layer == fSilk || d.layer == bSilk)
            && d.klass == DrawingClass.ptext then
          pure [d]
        else
          pure []
    let tl ← copyDrawings plate layerName rest
    return hd ++ tl

/-- The pad loop of an ordinary footprint (lines 166-176): circle/oval
pads on the reference layer are converted to NPTH holes and kept, all
other pads are removed. -/
def convertPads (plate : Board) (layerName : String) :
    List Pad → Except String (List Pad)
  | [] => Except.ok []
  | p :: rest => do
    let refId ← getLayerID plate layerName
    let hd :=
      if p.layers.contains refId
          && (p.shape == PadShape.circle || p.shape == PadShape.oval) then
        [{ p with
            attrib := PadAttrib.npth
            drillShape :=
              if p.shape == PadShape.circle then DrillShape.circle
              else DrillShape.oblong
            drillSize := p.size
            layers := unplatedHoleMask
            position := p.position }]
      else []
    let tl ← convertPads plate layerName rest
    return hd ++ tl

/-- The graphics loop of an ordinary footprint (lines 177-181): items on
the reference layer are remapped to the edge-cut layer and kept, all other
items are removed. -/
def convertGraphics (plate : Board) (layerName : String) :
    List FPGraphic → Except String (List FPGraphic)
  | [] => Except.ok []
  | g :: rest => do
    let refId ← getLayerID plate layerName
    let hd ←
      if g.layer == refId then do
        let edgeId ← getLayerID plate "Edge.Cuts"
        pure [{ g with layer := edgeId }]
      else
        pure []
    let tl ← convertGraphics plate layerName rest
    return hd ++ tl

/-- The footprint loop (lines 156-183): each source footprint whose
bounding box intersects the plate bounds is duplicated at its position;
preserved-whole footprints are added unchanged, ordinary footprints are
filtered and added only when non-empty. -/
def copyFootprints (plate : Board) (layerName : String) (bounds : BBox) :
    List Footprint → Except String (List Footprint)
  | [] => Except.ok []
  | f :: rest => do
    let hd ←
      if f.box.intersects bounds then
        if isPreservedRef f.reference then
          pure [f]
        else do
          let pads ← convertPads plate layerName f.pads
          let graphics ← convertGraphics plate layerName f.graphics
          let f' := { f with pads := pads, graphics := graphics }
          if f'.pads.length > 0 || f'.graphics.length > 0 then pure [f']
          else pure []
      else
        pure []
    let tl ← copyFootprints plate layerName bounds rest
    return hd ++ tl

/-- `__create_plate_pcb_from_layer` (lines 122-187): derive a plate board
from the source board and a reference layer name.  Returns `none` when the
accumulated edge-cut geometry has a zero-area bounding box; otherwise the
populated plate.  (`Save` is filesystem output and out of scope; the
plate's file identity is the path it is saved under.) -/
def derivePlate (board : Board) (layerName outputFolder suffix : String) :
    Except String (Option Board) := do
  let path := platePath outputFolder board.fileName suffix
  let plate0 := newBoard path
  let ds ← copyDrawings plate0 layerName board.drawings
  let plate1 : Board := { plate0 with drawings := ds }
  let platebounds := edgesBBox plate1.drawings
  if platebounds.area = 0 then
    pure none
  else do
    let fps ← copyFootprints plate1 layerName platebounds board.footprints
    pure (some { plate1 with footprints := fps })

/-! ## Production orchestrator (`produce`, lines 190-220)

Gerber/drill/zip emission is external IO; it is abstracted as a
caller-supplied per-board generator that may fail.  The orchestrator's own
structure — derive both plates, then hand the source board and every
non-null plate to the generator in sequence, with no error isolation —
is modelled faithfully. -/

/-- Line 217's list comprehension:
`[p for p in [board, bottom_plate, top_plate] if p]`. -/
def boardsToProduce (board : Board) (bottom top : Option Board) :
    List Board :=
  List.filterMap id [some board, bottom, top]

/-- The artifact loop (lines 217-220): run the generator on each board in
sequence; a raised failure propagates and stops the loop.  Returns the
file names of the boards that were processed. -/
def processBoards (gen : Board → Except String Unit) :
    List Board → Except String (List String)
  | [] => Except.ok []
  | b :: rest => do
    gen b
    let tl ← processBoards gen rest
    return b.fileName :: tl

/-- `produce` (lines 190-220): derive the bottom and top plates into the
staging folder, then hand the source board and each non-null plate to the
artifact generator.  Directory staging (`rmtree`/`makedirs`) is filesystem
IO and out of scope. -/
def produce (gen : Board → Except String Unit) (board : Board) :
    Except String (List String) := do
  let tempPath := pathJoin (dirName board.fileName) "../../temp"
  let bottom ← derivePlate board "B.Adhesive" tempPath "bottom-plate"
  let top ← derivePlate board "F.Adhesive" tempPath "top-plate"
  processBoards gen (boardsToProduce board bottom top)

/-- The result of a successful derivation with a valid reference layer,
written out in terms of the pure per-item policies. -/
def derivedPlate (board : Board) (l o s : String) : Option Board :=
  let ds := board.drawings.filterMap (copyDrawing l)
  if (edgesBBox ds).area = 0 then none
  else some
    { fileName := platePath o board.fileName s
      layerNames := standardLayers
      drawings := ds
      footprints := board.footprints.filterMap
        (processFootprint l (edgesBBox ds)) }

/-! ## Allocation model of duplication (frame property)

The plugin mutates host objects in place (`SetLayer`, `SetAttribute`,
`SetDrillShape`, `SetDrillSize`, `SetLayerSet`, `SetPosition`), but only
ever on objects obtained from `Duplicate()` / the `FOOTPRINT` copy
constructor.  Modelled from the spec: duplication produces an
independently owned copy (an allocation of a fresh cell), never an alias
of a source entity.  To make "the source board is never mutated" a
non-vacuous statement, this second rendering of the same source lines
makes object identity explicit: entities live in a heap, boards and
footprints hold cell indices, duplication allocates a fresh index, and
every setter writes through an index. -/

/-- The object heap: one list of cells per mutable entity class. -/
structure Heap where
  drawings : List Drawing
  pads : List Pad
  graphics : List FPGraphic
deriving DecidableEq, Repr

instance : Inhabited Drawing :=
  ⟨⟨DrawingClass.otherClass, "", ⟨0, 0, 0, 0⟩⟩⟩

/-- Read a drawing cell. -/
def Heap.drawingAt (hp : Heap) (i : Nat) : Drawing :=
  hp.drawings.getD i default

/-- Read a pad cell. -/
def Heap.padAt (hp : Heap) (i : Nat) : Pad :=
  hp.pads.getD i default

/-- Read a graphical-item cell. -/
def Heap.graphicAt (hp : Heap) (i : Nat) : FPGraphic :=
  hp.graphics.getD i default

/-- `drawing.Duplicate()`: allocate a fresh cell holding a copy of cell
`i`; returns the new heap and the fresh index. -/
def Heap.allocDrawing (hp : Heap) (d : Drawing) : Heap × Nat :=
  ({ hp with drawings := hp.drawings ++ [d] }, hp.drawings.length)

/-- `new_drawing.SetLayer(layer)`: write through index `i`. -/
def Heap.setDrawingLayer (hp : Heap) (i : Nat) (l : String) : Heap :=
  { hp with drawings := hp.drawings.set i { hp.drawingAt i with layer := l } }

/-- Allocate fresh pad cells holding copies of the given pads (the pad
part of the `FOOTPRINT` copy constructor); returns the fresh indices in
order. -/
def Heap.allocPads (hp : Heap) (ps : List Pad) : Heap × List Nat :=
  ({ hp with pads := hp.pads ++ ps }, List.range' hp.pads.length ps.length)

/-- Allocate fresh graphical-item cells (the graphics part of the
`FOOTPRINT` copy constructor). -/
def Heap.allocGraphics (hp : Heap) (gs : List FPGraphic) : Heap × List Nat :=
  ({ hp with graphics := hp.graphics ++ gs },
    List.range' hp.graphics.length gs.length)

/-- Lines 170-174 written through pad index `i`: `SetAttribute(NPTH)`,
`SetDrillShape(...)`, `SetDrillSize(GetSize())`,
`SetLayerSet(UnplatedHoleMask())`, `SetPosition(GetPosition())`. -/
def Heap.convertPadAt (hp : Heap) (i : Nat) : Heap :=
  let p := hp.padAt i
  let p' : Pad :=
    { p with
      attrib := PadAttrib.npth
      drillShape :=
        if p.shape == PadShape.circle then DrillShape.circle
        else DrillShape.oblong
      drillSize := p.size
      layers := unplatedHoleMask
      position := p.position }
  { hp with pads := hp.pads.set i p' }

/-- `graphic.SetLayer(layer)`: write through index `i`. -/
def Heap.setGraphicLayer (hp : Heap) (i : Nat) (l : String) : Heap :=
  { hp with graphics := hp.graphics.set i { hp.graphicAt i with layer := l } }

/-- A footprint referring to its pads and graphical items by heap
index. -/
structure FootprintRef where
  reference : String
  position : Int × Int
  box : BBox
  padIds : List Nat
  graphicIds : List Nat
deriving DecidableEq, Repr

/-- A board referring to its drawings by heap index. -/
structure BoardRef where
  fileName : String
  layerNames : List String
  drawingIds : List Nat
  footprints : List FootprintRef
deriving DecidableEq, Repr

/-- The footprint value a `FootprintRef` denotes in a heap. -/
def derefFootprint (hp : Heap) (f : FootprintRef) : Footprint :=
  ⟨f.reference, f.position, f.box, f.padIds.map hp.padAt,
    f.graphicIds.map hp.graphicAt⟩

/-- The board value a `BoardRef` denotes in a heap. -/
def derefBoard (hp : Heap) (b : BoardRef) : Board :=
  ⟨b.fileName, b.layerNames, b.drawingIds.map hp.drawingAt,
    b.footprints.map (derefFootprint hp)⟩

/-- All indices of a board are live cells of the heap. -/
def validBoardRef (hp : Heap) (b : BoardRef) : Prop :=
  (∀ i ∈ b.drawingIds, i < hp.drawings.length) ∧
  (∀ f ∈ b.footprints,
    (∀ i ∈ f.padIds, i < hp.pads.length) ∧
    (∀ i ∈ f.graphicIds, i < hp.graphics.length))

instance (hp : Heap) (b : BoardRef) : Decidable (validBoardRef hp b) := by
  unfold validBoardRef
  infer_instance

/-- The drawing loop (lines 142-148) with explicit duplication: every
source drawing is duplicated first; the duplicate (never the source cell)
is remapped when it is shape geometry on the reference layer; duplicates
not added to the plate are simply dropped. -/
def copyDrawingsH (plate : Board) (l : String) (hp : Heap) :
    List Nat → Except String (Heap × List Nat)
  | [] => Except.ok (hp, [])
  | i :: rest => do
    let (hp1, j) := hp.allocDrawing (hp.drawingAt i)
    let refId ← getLayerID plate l
    if (hp1.drawingAt i).layer == refId
        && (hp1.drawingAt i).klass == DrawingClass.pcbShape then do
      let edgeId ← getLayerID plate "Edge.Cuts"
      let hp2 := hp1.setDrawingLayer j edgeId
      let (hp3, tl) ← copyDrawingsH plate l hp2 rest
      pure (hp3, j :: tl)
    else do
      let fSilk ← getLayerID plate "F.Silkscreen"
      let bSilk ← getLayerID plate "B.Silkscreen"
      if ((hp1.drawingAt i).layer == fSilk
          || (hp1.drawingAt i).layer == bSilk)
          && (hp1.drawingAt i).klass == DrawingClass.ptext then do
        let (hp2, tl) ← copyDrawingsH plate l hp1 rest
        pure (hp2, j :: tl)
      else do
        let (hp2, tl) ← copyDrawingsH plate l hp1 rest
        pure (hp2, tl)

/-- The pad loop (lines 166-176) over the duplicate footprint's pad
indices: eligible pads are converted in place (through their index),
ineligible pads are removed from the footprint. -/
def convertPadsH (plate : Board) (l : String) (hp : Heap) :
    List Nat → Except String (Heap × List Nat)
  | [] => Except.ok (hp, [])
  | i :: rest => do
    let refId ← getLayerID plate l
    if (hp.padAt i).layers.contains refId
        && ((hp.padAt i).shape == PadShape.circle
          || (hp.padAt i).shape == PadShape.oval) then do
      let hp1 := hp.convertPadAt i
      let (hp2, tl) ← convertPadsH plate l hp1 rest
      pure (hp2, i :: tl)
    else do
      let (hp1, tl) ← convertPadsH plate l hp rest
      pure (hp1, tl)

/-- The graphics loop (lines 177-181) over the duplicate footprint's
graphic indices. -/
def convertGraphicsH (plate : Board) (l : String) (hp : Heap) :
    List Nat → Except String (Heap × List Nat)
  | [] => Except.ok (hp, [])
  | i :: rest => do
    let refId ← getLayerID plate l
    if (hp.graphicAt i).layer == refId then do
      let edgeId ← getLayerID plate "Edge.Cuts"
      let hp1 := hp.setGraphicLayer i edgeId
      let (hp2, tl) ← convertGraphicsH plate l hp1 rest
      pure (hp2, i :: tl)
    else do
      let (hp1, tl) ← convertGraphicsH plate l hp rest
      pure (hp1, tl)

/-- `pcbnew.FOOTPRINT(footprint)` (line 158): a fresh footprint whose
pads and graphical items are fresh copies of the source cells;
`SetPosition(GetPosition())` keeps the position. -/
def dupFootprintH (hp : Heap) (f : FootprintRef) : Heap × FootprintRef :=
  let (hp1, pids) := hp.allocPads (f.padIds.map hp.padAt)
  let (hp2, gids) := hp1.allocGraphics (f.graphicIds.map hp1.graphicAt)
  (hp2, { f with padIds := pids, graphicIds := gids })

/-- The footprint loop (lines 156-183) with explicit duplication. -/
def copyFootprintsH (plate : Board) (l : String) (bounds : BBox)
    (hp : Heap) :
    List FootprintRef → Except String (Heap × List FootprintRef)
  | [] => Except.ok (hp, [])
  | f :: rest => do
    if f.box.intersects bounds then
      let (hp1, f') := dupFootprintH hp f
      if isPreservedRef f.reference then do
        let (hp2, tl) ← copyFootprintsH plate l bounds hp1 rest
        pure (hp2, f' :: tl)
      else do
        let (hp2, pids) ← convertPadsH plate l hp1 f'.padIds
        let (hp3, gids) ← convertGraphicsH plate l hp2 f'.graphicIds
        let f'' := { f' with padIds := pids, graphicIds := gids }
        if f''.padIds.length > 0 || f''.graphicIds.length > 0 then do
          let (hp4, tl) ← copyFootprintsH plate l bounds hp3 rest
          pure (hp4, f'' :: tl)
        else do
          let (hp4, tl) ← copyFootprintsH plate l bounds hp3 rest
          pure (hp4, tl)
    else do
      let (hp1, tl) ← copyFootprintsH plate l bounds hp rest
      pure (hp1, tl)

/-- `__create_plate_pcb_from_layer` over the heap: identical control flow
to `derivePlate`, with duplication and in-place mutation explicit. -/
def derivePlateH (hp : Heap) (board : BoardRef)
    (layerName outputFolder suffix : String) :
    Except String (Heap × Option BoardRef) := do
  let path := platePath outputFolder board.fileName suffix
  let plate0 := newBoard path
  let (hp1, dids) ← copyDrawingsH plate0 layerName hp board.drawingIds
  let platebounds := edgesBBox (dids.map hp1.drawingAt)
  if platebounds.area = 0 then
    pure (hp1, none)
  else do
    let (hp2, fps) ←
      copyFootprintsH plate0 layerName platebounds hp1 board.footprints
    pure (hp2, some
      { fileName := path, layerNames := standardLayers,
        drawingIds := dids, footprints := fps })

/-! ## Concrete sample data

Small boards used to evaluate the embedding on explicit inputs (witnesses
and counterexamples). -/

/-- A shape drawing on the front adhesive layer (a plate outline). -/
def exDraw : Drawing := ⟨DrawingClass.pcbShape, "F.Adhesive", ⟨0, 0, 10, 10⟩⟩

/-- A text drawing on the front silkscreen. -/
def exText : Drawing := ⟨DrawingClass.ptext, "F.Silkscreen", ⟨1, 1, 2, 2⟩⟩

/-- A circular SMD pad on the front adhesive layer (NPTH-eligible). -/
def exPadCircle : Pad :=
  { layers := ["F.Adhesive", "F.Cu"], shape := PadShape.circle, size := (3, 3),
    position := (5, 5), attrib := PadAttrib.smd,
    drillShape := DrillShape.circle, drillSize := (0, 0) }

/-- An SMD pad not on the adhesive layer (to be removed). -/
def exPadSmd : Pad :=
  { layers := ["F.Cu"], shape := PadShape.otherShape, size := (2, 1),
    position := (6, 6), attrib := PadAttrib.smd,
    drillShape := DrillShape.circle, drillSize := (0, 0) }

/-- A plated through-hole pad of a mounting-hole footprint. -/
def exPadPth : Pad :=
  { layers := ["F.Cu", "B.Cu"], shape := PadShape.otherShape, size := (2, 2),
    position := (5, 5), attrib := PadAttrib.pth,
    drillShape := DrillShape.circle, drillSize := (1, 1) }

/-- A preserved-whole mounting-hole footprint carrying a plated pad. -/
def exFootH : Footprint := ⟨"H1", (5, 5), ⟨4, 4, 6, 6⟩, [exPadPth], []⟩

/-- An ordinary footprint straddling the outline boundary, with one
NPTH-eligible pad, one other pad, one adhesive-layer graphic, and one
other graphic. -/
def exFootR : Footprint :=
  ⟨"R1", (8, 8), ⟨8, 8, 12, 12⟩, [exPadCircle, exPadSmd],
    [⟨"F.Adhesive"⟩, ⟨"F.Fab"⟩]⟩

/-- An ordinary footprint inside the outline with nothing on the
reference layer (filtered empty, so dropped). -/
def exFootEmpty : Footprint := ⟨"U1", (3, 3), ⟨2, 2, 4, 4⟩, [exPadSmd], [⟨"F.Fab"⟩]⟩

/-- An ordinary footprint far outside the outline (never considered). -/
def exFootFar : Footprint := ⟨"R9", (50, 50), ⟨49, 49, 51, 51⟩, [exPadCircle], []⟩

/-- The sample source board. -/
def exBoard : Board :=
  ⟨"proj/boards/main.kicad_pcb", standardLayers, [exDraw, exText],
    [exFootH, exFootR, exFootEmpty, exFootFar]⟩

/-- `exPadCircle` after NPTH conversion. -/
def exPadConverted : Pad :=
  { layers := unplatedHoleMask, shape := PadShape.circle, size := (3, 3),
    position := (5, 5), attrib := PadAttrib.npth,
    drillShape := DrillShape.circle, drillSize := (3, 3) }

/-- `exFootR` after filtering. -/
def exFootRDerived : Footprint :=
  ⟨"R1", (8, 8), ⟨8, 8, 12, 12⟩, [exPadConverted], [⟨"Edge.Cuts"⟩]⟩

/-- The top plate derived from `exBoard` into folder `out`. -/
def exPlate : Board :=
  ⟨"out/main-top-plate.kicad_pcb", standardLayers,
    [⟨DrawingClass.pcbShape, "Edge.Cuts", ⟨0, 0, 10, 10⟩⟩, exText],
    [exFootH, exFootRDerived]⟩

/-- A board with no drawings at all. -/
def exBoardNoDraw : Board := ⟨"m.kicad_pcb", standardLayers, [], [exFootH]⟩

/-- A board with a single adhesive-layer drawing. -/
def exBoardOneDraw : Board := ⟨"m.kicad_pcb", standardLayers, [exDraw], []⟩

/-- A board whose file name contains `.kicad_pcb` twice. -/
def exBoardDouble : Board :=
  ⟨"x.kicad_pcb.kicad_pcb", standardLayers, [exDraw], []⟩

/-- The top plate derived from `exBoard` into the staging folder used by
`produce`. -/
def exPlateTemp : Board :=
  { exPlate with fileName := "proj/boards/../../temp/main-top-plate.kicad_pcb" }

/-- An artifact generator that always succeeds. -/
def exGenOk : Board → Except String Unit := fun _ => Except.ok ()

/-- An artifact generator that always fails (e.g. the gerber plotter
cannot write its output). -/
def exGenFail : Board → Except String Unit := fun _ => Except.error "disk full"

/-- A heap holding the sample board's drawings, pads, and graphics. -/
def exHeap : Heap :=
  ⟨[exDraw, exText], [exPadPth, exPadCircle, exPadSmd],
    [⟨"F.Adhesive"⟩, ⟨"F.Fab"⟩]⟩

/-- `exFootH` referring to pad cell 0. -/
def exFootHRef : FootprintRef := ⟨"H1", (5, 5), ⟨4, 4, 6, 6⟩, [0], []⟩

/-- `exFootR` referring to pad cells 1 and 2 and graphic cells 0 and 1. -/
def exFootRRef : FootprintRef := ⟨"R1", (8, 8), ⟨8, 8, 12, 12⟩, [1, 2], [0, 1]⟩

/-- The sample board over the heap. -/
def exBoardRef : BoardRef :=
  ⟨"proj/boards/main.kicad_pcb", standardLayers, [0, 1],
    [exFootHRef, exFootRRef]⟩

/-- The heap after deriving the top plate from `exBoardRef`: cells 0-1
(drawings), 0-2 (pads), and 0-1 (graphics) are the untouched source
cells; the cells after them are the duplicates, mutated as the plate
requires (orphaned duplicates — the dropped text duplicate is re-created
at index 3, the removed pad copies — simply stay unreferenced). -/
def exHeapAfter : Heap :=
  ⟨[exDraw, exText, ⟨DrawingClass.pcbShape, "Edge.Cuts", ⟨0, 0, 10, 10⟩⟩,
      exText],
    [exPadPth, exPadCircle, exPadSmd, exPadPth, exPadConverted, exPadSmd],
    [⟨"F.Adhesive"⟩, ⟨"F.Fab"⟩, ⟨"Edge.Cuts"⟩, ⟨"F.Fab"⟩]⟩

/-- The derived plate over the heap: it references only freshly allocated
cells. -/
def exPlateRef : BoardRef :=
  ⟨"out/main-top-plate.kicad_pcb", standardLayers, [2, 3],
    [⟨"H1", (5, 5), ⟨4, 4, 6, 6⟩, [3], []⟩,
      ⟨"R1", (8, 8), ⟨8, 8, 12, 12⟩, [4], [2]⟩]⟩

/-! ## Bridge lemmas

The `Except`-level loops agree with the pure per-item policies whenever
their layer resolutions succeed, and a successful run forces exactly
that. -/

@[simp]
theorem bindOk {ε α β : Type} (x : α) (f : α → Except ε β) :
    (Except.ok x : Except ε α) >>= f = f x := rfl

@[simp]
theorem bindError {ε α β : Type} (e : ε) (f : α → Except ε β) :
    (Except.error e : Except ε α) >>= f = Except.error e := rfl

@[simp]
theorem pureOk {ε α : Type} (x : α) :
    (pure x : Except ε α) = Except.ok x := rfl

theorem getLayerID_dichotomy (b : Board) (n : String) :
    getLayerID b n = Except.ok n ∨
      getLayerID b n = Except.error ("unresolvable layer: " ++ n) := by
  unfold getLayerID
  split
  · exact Or.inl rfl
  · exact Or.inr rfl

theorem getLayerID_of_contains {b : Board} {n : String}
    (h : b.layerNames.contains n = true) : getLayerID b n = Except.ok n := by
  unfold getLayerID
  rw [h]
  rfl

theorem getLayerID_of_not_contains {b : Board} {n : String}
    (h : b.layerNames.contains n = false) :
    getLayerID b n = Except.error ("unresolvable layer: " ++ n) := by
  unfold getLayerID
  rw [h]
  rfl

theorem newBoard_contains_standard {n : String} {path : String}
    (h : standardLayers.contains n = true) :
    (newBoard path).layerNames.contains n = true := h

theorem copyDrawings_ok {plate : Board} {l : String} {ds out : List Drawing}
    (h : copyDrawings plate l ds = Except.ok out) :
    out = ds.filterMap (copyDrawing l) := by
  induction ds generalizing out with
  | nil =>
    rw [copyDrawings] at h
    cases h
    rfl
  | cons d rest ih =>
    rw [copyDrawings] at h
    rcases getLayerID_dichotomy plate l with href | href <;> rw [href] at h
    · simp only [bindOk] at h
      split at h
      next hcond =>
        rcases getLayerID_dichotomy plate "Edge.Cuts" with hedge | hedge <;>
          rw [hedge] at h
        · simp only [bindOk, pureOk] at h
          cases htl : copyDrawings plate l rest <;> rw [htl] at h
          · simp at h
          next tl =>
            simp only [bindOk, pureOk, Except.ok.injEq] at h
            subst h
            rw [List.filterMap_cons, ih htl]
            simp [copyDrawing, hcond]
        · simp at h
      next hcond =>
        rcases getLayerID_dichotomy plate "F.Silkscreen" with hf | hf <;>
          rw [hf] at h
        · rcases getLayerID_dichotomy plate "B.Silkscreen" with hb | hb <;>
            rw [hb] at h
          · simp only [bindOk, pureOk] at h
            split at h
            next hcond2 =>
              cases htl : copyDrawings plate l rest <;> rw [htl] at h
              · simp at h
              next tl =>
                simp only [bindOk, pureOk, Except.ok.injEq] at h
                subst h
                rw [List.filterMap_cons, ih htl]
                simp [copyDrawing, hcond, hcond2]
            next hcond2 =>
              cases htl : copyDrawings plate l rest <;> rw [htl] at h
              · simp at h
              next tl =>
                simp only [bindOk, pureOk, Except.ok.injEq] at h
                subst h
                rw [List.filterMap_cons, ih htl]
                simp [copyDrawing, hcond, hcond2]
          · simp at h
        · simp at h
    · simp at h

theorem copyDrawings_of_contains {plate : Board} {l : String}
    (h1 : plate.layerNames.contains l = true)
    (h2 : plate.layerNames.contains "Edge.Cuts" = true)
    (h3 : plate.layerNames.contains "F.Silkscreen" = true)
    (h4 : plate.layerNames.contains "B.Silkscreen" = true)
    (ds : List Drawing) :
    copyDrawings plate l ds = Except.ok (ds.filterMap (copyDrawing l)) := by
  induction ds with
  | nil => rw [copyDrawings]; rfl
  | cons d rest ih =>
    rw [copyDrawings, getLayerID_of_contains h1]
    simp only [bindOk]
    rw [List.filterMap_cons]
    split
    next hcond =>
      rw [getLayerID_of_contains h2]
      simp only [bindOk, pureOk, ih]
      simp [copyDrawing, hcond]
    next hcond =>
      rw [getLayerID_of_contains h3, getLayerID_of_contains h4]
      simp only [bindOk, pureOk]
      split
      next hcond2 =>
        simp only [bindOk, pureOk, ih]
        simp [copyDrawing, hcond, hcond2]
      next hcond2 =>
        simp only [bindOk, pureOk, ih]
        simp [copyDrawing, hcond, hcond2]

theorem convertPads_ok {plate : Board} {l : String} {ps out : List Pad}
    (h : convertPads plate l ps = Except.ok out) :
    out = ps.filterMap (convertPad l unplatedHoleMask) := by
  induction ps generalizing out with
  | nil =>
    rw [convertPads] at h
    cases h
    rfl
  | cons p rest ih =>
    rw [convertPads] at h
    rcases getLayerID_dichotomy plate l with href | href <;> rw [href] at h
    · simp only [bindOk, pureOk] at h
      cases htl : convertPads plate l rest <;> rw [htl] at h
      · simp at h
      next tl =>
        simp only [bindOk, pureOk, Except.ok.injEq] at h
        subst h
        rw [List.filterMap_cons, ih htl]
        unfold convertPad
        split
        next hcond => simp [hcond]
        next hcond => simp [hcond]
    · simp at h

theorem convertPads_of_contains {plate : Board} {l : String}
    (h1 : plate.layerNames.contains l = true) (ps : List Pad) :
    convertPads plate l ps =
      Except.ok (ps.filterMap (convertPad l unplatedHoleMask)) := by
  induction ps with
  | nil => rw [convertPads]; rfl
  | cons p rest ih =>
    rw [convertPads, getLayerID_of_contains h1]
    simp only [bindOk, pureOk, ih]
    rw [List.filterMap_cons]
    unfold convertPad
    split
    next hcond => simp [hcond]
    next hcond => simp [hcond]

theorem convertGraphics_ok {plate : Board} {l : String}
    {gs out : List FPGraphic}
    (h : convertGraphics plate l gs = Except.ok out) :
    out = gs.filterMap (convertGraphic l) := by
  induction gs generalizing out with
  | nil =>
    rw [convertGraphics] at h
    cases h
    rfl
  | cons g rest ih =>
    rw [convertGraphics] at h
    rcases getLayerID_dichotomy plate l with href | href <;> rw [href] at h
    · simp only [bindOk] at h
      split at h
      next hcond =>
        rcases getLayerID_dichotomy plate "Edge.Cuts" with hedge | hedge <;>
          rw [hedge] at h
        · simp only [bindOk, pureOk] at h
          cases htl : convertGraphics plate l rest <;> rw [htl] at h
          · simp at h
          next tl =>
            simp only [bindOk, pureOk, Except.ok.injEq] at h
            subst h
            rw [List.filterMap_cons, ih htl]
            simp [convertGraphic, hcond]
        · simp at h
      next hcond =>
        simp only [bindOk, pureOk] at h
        cases htl : convertGraphics plate l rest <;> rw [htl] at h
        · simp at h
        next tl =>
          simp only [bindOk, pureOk, Except.ok.injEq] at h
          subst h
          rw [List.filterMap_cons, ih htl]
          simp [convertGraphic, hcond]
    · simp at h

theorem convertGraphics_of_contains {plate : Board} {l : String}
    (h1 : plate.layerNames.contains l = true)
    (h2 : plate.layerNames.contains "Edge.Cuts" = true)
    (gs : List FPGraphic) :
    convertGraphics plate l gs =
      Except.ok (gs.filterMap (convertGraphic l)) := by
  induction gs with
  | nil => rw [convertGraphics]; rfl
  | cons g rest ih =>
    rw [convertGraphics, getLayerID_of_contains h1]
    simp only [bindOk]
    rw [List.filterMap_cons]
    split
    next hcond =>
      rw [getLayerID_of_contains h2]
      simp only [bindOk, pureOk, ih]
      simp [convertGraphic, hcond]
    next hcond =>
      simp only [bindOk, pureOk, ih]
      simp [convertGraphic, hcond]

theorem copyFootprints_ok {plate : Board} {l : String} {bounds : BBox}
    {fs out : List Footprint}
    (h : copyFootprints plate l bounds fs = Except.ok out) :
    out = fs.filterMap (processFootprint l bounds) := by
  induction fs generalizing out with
  | nil =>
    rw [copyFootprints] at h
    cases h
    rfl
  | cons f rest ih =>
    rw [copyFootprints] at h
    rw [List.filterMap_cons]
    split at h
    next hint =>
      split at h
      next hpres =>
        simp only [bindOk, pureOk] at h
        cases htl : copyFootprints plate l bounds rest <;> rw [htl] at h
        · simp at h
        next tl =>
          simp only [bindOk, pureOk, Except.ok.injEq] at h
          subst h
          rw [ih htl]
          simp [processFootprint, hint, hpres]
      next hpres =>
        cases hps : convertPads plate l f.pads <;> rw [hps] at h
        · simp at h
        next ps =>
          cases hgs : convertGraphics plate l f.graphics <;> rw [hgs] at h
          · simp at h
          next gs =>
            simp only [bindOk, pureOk] at h
            have hps' := convertPads_ok hps
            have hgs' := convertGraphics_ok hgs
            subst hps' hgs'
            have hproc : processFootprint l bounds f =
                if (filterFootprint l f).pads.length > 0
                    || (filterFootprint l f).graphics.length > 0 then
                  some (filterFootprint l f)
                else none := by
              unfold processFootprint
              rw [if_pos hint, if_neg hpres]
            split at h
            next hne =>
              have hne' : (decide ((filterFootprint l f).pads.length > 0)
                  || decide ((filterFootprint l f).graphics.length > 0))
                  = true := hne
              cases htl : copyFootprints plate l bounds rest <;> rw [htl] at h
              · simp at h
              next tl =>
                simp only [bindOk, pureOk, Except.ok.injEq] at h
                subst h
                rw [ih htl, hproc, if_pos hne']
                rfl
            next hne =>
              have hne' : ¬((decide ((filterFootprint l f).pads.length > 0)
                  || decide ((filterFootprint l f).graphics.length > 0))
                  = true) := hne
              cases htl : copyFootprints plate l bounds rest <;> rw [htl] at h
              · simp at h
              next tl =>
                simp only [bindOk, pureOk, Except.ok.injEq] at h
                subst h
                rw [ih htl, hproc, if_neg hne']
                rfl
    next hint =>
      simp only [bindOk, pureOk] at h
      cases htl : copyFootprints plate l bounds rest <;> rw [htl] at h
      · simp at h
      next tl =>
        simp only [bindOk, pureOk, Except.ok.injEq] at h
        subst h
        rw [ih htl]
        simp [processFootprint, hint]

theorem copyFootprints_of_contains {plate : Board} {l : String}
    (h1 : plate.layerNames.contains l = true)
    (h2 : plate.layerNames.contains "Edge.Cuts" = true)
    (bounds : BBox) (fs : List Footprint) :
    copyFootprints plate l bounds fs =
      Except.ok (fs.filterMap (processFootprint l bounds)) := by
  induction fs with
  | nil => rw [copyFootprints]; rfl
  | cons f rest ih =>
    rw [copyFootprints]
    rw [List.filterMap_cons]
    split
    next hint =>
      split
      next hpres =>
        simp only [bindOk, pureOk, ih]
        simp [processFootprint, hint, hpres]
      next hpres =>
        rw [convertPads_of_contains h1, convertGraphics_of_contains h1 h2]
        simp only [bindOk, pureOk]
        have hproc : processFootprint l bounds f =
            if (filterFootprint l f).pads.length > 0
                || (filterFootprint l f).graphics.length > 0 then
              some (filterFootprint l f)
            else none := by
          unfold processFootprint
          rw [if_pos hint, if_neg hpres]
        rw [hproc]
        split
        next hne =>
          have hne' : (decide ((filterFootprint l f).pads.length > 0)
              || decide ((filterFootprint l f).graphics.length > 0))
              = true := hne
          rw [if_pos hne']
          simp only [bindOk, pureOk, ih]
          rfl
        next hne =>
          have hne' : ¬((decide ((filterFootprint l f).pads.length > 0)
              || decide ((filterFootprint l f).graphics.length > 0))
              = true) := hne
          rw [if_neg hne']
          simp only [bindOk, pureOk, ih]
          rfl
    next hint =>
      simp only [bindOk, pureOk, ih]
      simp [processFootprint, hint]

theorem derivePlate_of_contains {board : Board} {l : String}
    (hl : standardLayers.contains l = true) (o s : String) :
    derivePlate board l o s = Except.ok (derivedPlate board l o s) := by
  have hE : standardLayers.contains "Edge.Cuts" = true := by decide
  have hF : standardLayers.contains "F.Silkscreen" = true := by decide
  have hB : standardLayers.contains "B.Silkscreen" = true := by decide
  simp only [derivePlate, derivedPlate]
  rw [@copyDrawings_of_contains (newBoard (platePath o board.fileName s)) l
    hl hE hF hB]
  simp only [bindOk]
  split
  next hzero => rfl
  next hzero =>
    rw [@copyFootprints_of_contains
      { newBoard (platePath o board.fileName s) with
        drawings := board.drawings.filterMap (copyDrawing l) } l hl hE]
    simp only [bindOk, pureOk]
    rfl

/-- Inverse characterization: any successful derivation that yields a
plate has exactly the structure given by the pure per-item policies. -/
theorem derivePlate_some_spec {board : Board} {l o s : String}
    {plate : Board}
    (h : derivePlate board l o s = Except.ok (some plate)) :
    plate.fileName = platePath o board.fileName s ∧
    plate.layerNames = standardLayers ∧
    plate.drawings = board.drawings.filterMap (copyDrawing l) ∧
    (edgesBBox plate.drawings).area ≠ 0 ∧
    plate.footprints = board.footprints.filterMap
      (processFootprint l (edgesBBox plate.drawings)) := by
  simp only [derivePlate] at h
  cases hds : copyDrawings (newBoard (platePath o board.fileName s)) l
      board.drawings <;> rw [hds] at h
  · simp at h
  next ds =>
    simp only [bindOk] at h
    split at h
    next hzero => simp at h
    next hzero =>
      cases hfs : copyFootprints
          ({ newBoard (platePath o board.fileName s) with drawings := ds })
          l (edgesBBox ds) board.footprints <;> rw [hfs] at h
      · simp at h
      next fps =>
        simp only [bindOk, pureOk, Except.ok.injEq, Option.some.injEq] at h
        have hds' := copyDrawings_ok hds
        have hfs' := copyFootprints_ok hfs
        subst hds' hfs'
        cases h
        refine ⟨rfl, rfl, rfl, ?_, rfl⟩
        exact hzero

/-- Case analysis of the per-drawing policy. -/
theorem copyDrawing_eq_some {l : String} {d d' : Drawing}
    (h : copyDrawing l d = some d') :
    (d.klass = DrawingClass.pcbShape ∧ d.layer = l ∧
      d' = { d with layer := "Edge.Cuts" }) ∨
    (d.klass = DrawingClass.ptext ∧
      (d.layer = "F.Silkscreen" ∨ d.layer = "B.Silkscreen") ∧ d' = d) := by
  unfold copyDrawing at h
  split at h
  next hc =>
    cases h
    simp only [Bool.and_eq_true, beq_iff_eq] at hc
    exact Or.inl ⟨hc.2, hc.1, rfl⟩
  next hc =>
    split at h
    next hc2 =>
      cases h
      simp only [Bool.and_eq_true, Bool.or_eq_true, beq_iff_eq] at hc2
      exact Or.inr ⟨hc2.2, hc2.1, rfl⟩
    next hc2 => cases h

/-- C5: in a successful derivation, the plate's drawings are exactly the
source drawings processed in source order by the three-way policy: a
shape-geometry drawing on the reference layer is appended remapped to the
edge-cut layer, a text drawing on front- or back-silkscreen is appended
unchanged, anything else is not appended; and every copied drawing is
either a remapped reference-layer shape or an untouched silkscreen text,
never both (the two cases have incompatible drawing classes). -/
theorem claim_C5 {board : Board} {l o s : String} {plate : Board}
    (h : derivePlate board l o s = Except.ok (some plate)) :
    plate.drawings = board.drawings.filterMap (copyDrawing l) ∧
    (∀ d ∈ board.drawings, d.klass = DrawingClass.pcbShape → d.layer = l →
      ({ d with layer := "Edge.Cuts" } : Drawing) ∈ plate.drawings) ∧
    (∀ d ∈ board.drawings, d.klass = DrawingClass.ptext →
      (d.layer = "F.Silkscreen" ∨ d.layer = "B.Silkscreen") →
      d ∈ plate.drawings) ∧
    (∀ d' ∈ plate.drawings, ∃ d ∈ board.drawings,
      (d.klass = DrawingClass.pcbShape ∧ d.layer = l ∧
        d' = { d with layer := "Edge.Cuts" } ∧
        d.klass ≠ DrawingClass.ptext) ∨
      (d.klass = DrawingClass.ptext ∧
        (d.layer = "F.Silkscreen" ∨ d.layer = "B.Silkscreen") ∧ d' = d ∧
        d.klass ≠ DrawingClass.pcbShape)) := by
  obtain ⟨-, -, hds, -, -⟩ := derivePlate_some_spec h
  refine ⟨hds, ?_, ?_, ?_⟩
  · intro d hd hk hl
    rw [hds]
    refine List.mem_filterMap.mpr ⟨d, hd, ?_⟩
    unfold copyDrawing
    rw [if_pos]
    simp [hl, hk]
  · intro d hd hk hl
    rw [hds]
    refine List.mem_filterMap.mpr ⟨d, hd, ?_⟩
    unfold copyDrawing
    rw [if_neg, if_pos]
    · simp [hk]
      rcases hl with hl | hl <;> simp [hl]
    · simp [hk]
  · intro d' hd'
    rw [hds] at hd'
    obtain ⟨d, hd, hcd⟩ := List.mem_filterMap.mp hd'
    refine ⟨d, hd, ?_⟩
    rcases copyDrawing_eq_some hcd with ⟨h1, h2, h3⟩ | ⟨h1, h2, h3⟩
    · exact Or.inl ⟨h1, h2, h3, by rw [h1]; intro hc; cases hc⟩
    · exact Or.inr ⟨h1, h2, h3, by rw [h1]; intro hc; cases hc⟩

/-- Case analysis of the per-pad policy. -/
theorem convertPad_eq_some {l : String} {mask : List String} {p p' : Pad}
    (h : convertPad l mask p = some p') :
    p.layers.contains l = true ∧
    (p.shape = PadShape.circle ∨ p.shape = PadShape.oval) ∧
    p' = { p with
      attrib := PadAttrib.npth
      drillShape :=
        if p.shape == PadShape.circle then DrillShape.circle
        else DrillShape.oblong
      drillSize := p.size
      layers := mask
      position := p.position } := by
  unfold convertPad at h
  split at h
  next hc =>
    cases h
    simp only [Bool.and_eq_true, Bool.or_eq_true, beq_iff_eq] at hc
    exact ⟨hc.1, hc.2, rfl⟩
  next hc => cases h

/-- Case analysis of the per-graphic policy. -/
theorem convertGraphic_eq_some {l : String} {g g' : FPGraphic}
    (h : convertGraphic l g = some g') :
    g.layer = l ∧ g' = { g with layer := "Edge.Cuts" } := by
  unfold convertGraphic at h
  split at h
  next hc =>
    cases h
    simp only [beq_iff_eq] at hc
    exact ⟨hc, rfl⟩
  next hc => cases h

/-- Case analysis of the per-footprint policy. -/
theorem processFootprint_eq_some {l : String} {bounds : BBox}
    {f f' : Footprint}
    (h : processFootprint l bounds f = some f') :
    f.box.intersects bounds = true ∧
    ((isPreservedRef f.reference = true ∧ f' = f) ∨
      (isPreservedRef f.reference = false ∧ f' = filterFootprint l f ∧
        ((filterFootprint l f).pads.length > 0 ∨
          (filterFootprint l f).graphics.length > 0))) := by
  unfold processFootprint at h
  split at h
  next hint =>
    split at h
    next hpres =>
      cases h
      exact ⟨hint, Or.inl ⟨hpres, rfl⟩⟩
    next hpres =>
      split at h
      next hne =>
        cases h
        refine ⟨hint, Or.inr ⟨by simpa using hpres, rfl, ?_⟩⟩
        simpa using hne
      next hne => cases h
  next hint => cases h

/-- C3: every preserved-whole footprint (`H<digits>`/`LOGO<digits>`)
whose bounding box intersects the plate's outline bounding box is copied
into the plate as-is: the very same footprint value — same position, same
pads, same graphical items — is a member of the derived plate. -/
theorem claim_C3 {board : Board} {l o s : String} {plate : Board}
    {f : Footprint}
    (h : derivePlate board l o s = Except.ok (some plate))
    (hf : f ∈ board.footprints)
    (hpres : isPreservedRef f.reference = true)
    (hint : f.box.intersects (edgesBBox plate.drawings) = true) :
    f ∈ plate.footprints := by
  obtain ⟨-, -, -, -, hfs⟩ := derivePlate_some_spec h
  rw [hfs]
  refine List.mem_filterMap.mpr ⟨f, hf, ?_⟩
  unfold processFootprint
  rw [if_pos hint, if_pos hpres]

/-- C6: every footprint of a derived plate is either a preserved-whole
(`H<digits>`/`LOGO<digits>`) copy, or — for an ordinary footprint — all of
its surviving pads are unplated (NPTH) holes and all of its surviving
graphical items lie on the edge-cut layer: no copper-bearing item of an
ordinary footprint survives into the plate. -/
theorem claim_C6 {board : Board} {l o s : String} {plate : Board}
    {f' : Footprint}
    (h : derivePlate board l o s = Except.ok (some plate))
    (hf' : f' ∈ plate.footprints) :
    (∃ f ∈ board.footprints, isPreservedRef f.reference = true ∧ f' = f) ∨
    ((∀ p ∈ f'.pads, p.attrib = PadAttrib.npth) ∧
      (∀ g ∈ f'.graphics, g.layer = "Edge.Cuts")) := by
  obtain ⟨-, -, -, -, hfs⟩ := derivePlate_some_spec h
  rw [hfs] at hf'
  obtain ⟨f, hf, hproc⟩ := List.mem_filterMap.mp hf'
  obtain ⟨hint, hcase⟩ := processFootprint_eq_some hproc
  rcases hcase with ⟨hpres, rfl⟩ | ⟨hpres, rfl, hne⟩
  · exact Or.inl ⟨f', hf, hpres, rfl⟩
  · refine Or.inr ⟨?_, ?_⟩
    · intro p hp
      obtain ⟨q, hq, hconv⟩ := List.mem_filterMap.mp hp
      obtain ⟨-, -, hp'⟩ := convertPad_eq_some hconv
      rw [hp']
    · intro g hg
      obtain ⟨q, hq, hconv⟩ := List.mem_filterMap.mp hg
      obtain ⟨-, hg'⟩ := convertGraphic_eq_some hconv
      rw [hg']

/-- C1 (amended): every pad surviving in an **ordinary** footprint of a
derived plate is an unplated (NPTH) hole whose drill shape mirrors the
source pad's shape (circle→circular drill, oval→oblong drill), whose
drill size equals the source pad's outline size, whose layer set is the
unplated-hole layer mask, and whose position is unchanged.  (Pads of
preserved-whole `H`/`LOGO` footprints are copied as-is, which is why the
claim restricted to all surviving pads fails; see the counterexample.) -/
theorem claim_C1 {board : Board} {l o s : String} {plate : Board}
    {f f' : Footprint}
    (h : derivePlate board l o s = Except.ok (some plate))
    (hf : f ∈ board.footprints)
    (hord : isPreservedRef f.reference = false)
    (hproc : processFootprint l (edgesBBox plate.drawings) f = some f') :
    f' ∈ plate.footprints ∧
    ∀ p ∈ f'.pads, ∃ q ∈ f.pads,
      q.layers.contains l = true ∧
      (q.shape = PadShape.circle ∨ q.shape = PadShape.oval) ∧
      p.attrib = PadAttrib.npth ∧
      p.drillShape = (if q.shape = PadShape.circle then DrillShape.circle
        else DrillShape.oblong) ∧
      p.drillSize = q.size ∧
      p.layers = unplatedHoleMask ∧
      p.position = q.position := by
  obtain ⟨-, -, -, -, hfs⟩ := derivePlate_some_spec h
  constructor
  · rw [hfs]
    exact List.mem_filterMap.mpr ⟨f, hf, hproc⟩
  · obtain ⟨hint, hcase⟩ := processFootprint_eq_some hproc
    rcases hcase with ⟨hpres, rfl⟩ | ⟨hpres, rfl, hne⟩
    · rw [hpres] at hord
      cases hord
    · intro p hp
      obtain ⟨q, hq, hconv⟩ := List.mem_filterMap.mp hp
      obtain ⟨hlq, hshape, hp'⟩ := convertPad_eq_some hconv
      refine ⟨q, hq, hlq, hshape, ?_, ?_, ?_, ?_, ?_⟩ <;> rw [hp']
      cases q.shape <;> simp

/-- C4: an ordinary footprint whose bounding box intersects the plate
outline is never excluded by the intersection test alone: it is processed,
and the filtered duplicate is appended to the plate if and only if it
retains at least one pad or one graphical item; in particular a footprint
retaining exactly one converted pad is kept (see the witness, which
realizes the spec's straddling-footprint scenario). -/
theorem claim_C4 {board : Board} {l o s : String} {plate : Board}
    {f : Footprint}
    (h : derivePlate board l o s = Except.ok (some plate))
    (hf : f ∈ board.footprints)
    (hord : isPreservedRef f.reference = false)
    (hint : f.box.intersects (edgesBBox plate.drawings) = true) :
    (processFootprint l (edgesBBox plate.drawings) f =
      if (filterFootprint l f).pads.length > 0
          || (filterFootprint l f).graphics.length > 0 then
        some (filterFootprint l f)
      else none) ∧
    ((filterFootprint l f).pads.length > 0 ∨
        (filterFootprint l f).graphics.length > 0 →
      filterFootprint l f ∈ plate.footprints) := by
  obtain ⟨-, -, -, -, hfs⟩ := derivePlate_some_spec h
  have hproc : processFootprint l (edgesBBox plate.drawings) f =
      if (filterFootprint l f).pads.length > 0
          || (filterFootprint l f).graphics.length > 0 then
        some (filterFootprint l f)
      else none := by
    unfold processFootprint
    rw [if_pos hint, if_neg (by simp [hord])]
  refine ⟨hproc, fun hne => ?_⟩
  rw [hfs]
  refine List.mem_filterMap.mpr ⟨f, hf, ?_⟩
  rw [hproc, if_pos (by simpa using hne)]

/-- C2: with a valid reference layer, when the accumulated edge-cut
geometry of the plate has a zero-area bounding box, `derivePlate` returns
absence (`none`), no plate board is produced, and the orchestrator's board
list contains only the source board and the other plate — downstream
artifact generation is skipped for the absent plate. -/
theorem claim_C2 {board : Board} {l : String} (o s : String)
    (hl : standardLayers.contains l = true)
    (hzero : (edgesBBox (board.drawings.filterMap (copyDrawing l))).area = 0) :
    derivePlate board l o s = Except.ok none ∧
    (∀ top : Option Board,
      boardsToProduce board none top = board :: top.toList) ∧
    (∀ bottom : Option Board,
      boardsToProduce board bottom none = board :: bottom.toList) := by
  refine ⟨?_, ?_, ?_⟩
  · rw [derivePlate_of_contains hl]
    simp only [derivedPlate]
    rw [if_pos hzero]
  · intro top
    cases top <;> rfl
  · intro bottom
    cases bottom <;> rfl

/-- Witness for C2: on the sample board, the back-adhesive layer carries
no geometry, so the bottom plate is absent and only the source board and
the top plate reach artifact generation. -/
theorem claim_C2_witness :
    derivePlate exBoard "B.Adhesive" "out" "bottom-plate" = Except.ok none ∧
    boardsToProduce exBoard none (some exPlate) = [exBoard, exPlate] := by
  have h := @claim_C2 exBoard "B.Adhesive" "out" "bottom-plate"
    (by decide) (by decide)
  exact ⟨h.1, h.2.1 (some exPlate)⟩

/-- Counterexample to C8 as stated: with an unresolvable reference layer
name but a source board that has no drawings, derivation returns the
normal empty result (`none`) — the bad layer name never surfaces as an
error, because the zero-area early exit fires before any layer
resolution. -/
theorem claim_C8_cex :
    standardLayers.contains "B.Adhesive.Typo" = false ∧
    derivePlate exBoardNoDraw "B.Adhesive.Typo" "out" "bottom-plate" =
      Except.ok none := by decide

/-- C8 (amended): an unresolvable reference layer name is fatal — it
surfaces as an error and aborts the board's derivation — **provided the
source board has at least one drawing** (the first loop iteration resolves
the name); a board with no drawings instead hits the zero-area early exit
and returns the normal empty result without surfacing the error. -/
theorem claim_C8 {board : Board} {l : String} (o s : String)
    (hl : standardLayers.contains l = false) :
    (board.drawings = [] → derivePlate board l o s = Except.ok none) ∧
    (board.drawings ≠ [] →
      derivePlate board l o s =
        Except.error ("unresolvable layer: " ++ l)) := by
  constructor
  · intro hd
    simp only [derivePlate]
    rw [hd, copyDrawings]
    simp only [bindOk]
    rw [if_pos (by decide)]
    rfl
  · intro hd
    cases hdd : board.drawings with
    | nil => exact absurd hdd hd
    | cons d rest =>
      simp only [derivePlate]
      rw [hdd, copyDrawings,
        @getLayerID_of_not_contains
          (newBoard (platePath o board.fileName s)) l hl]
      simp

/-- Witness for C8 (amended): the same bogus layer name yields the normal
empty result on a drawing-less board and a fatal error on a board with a
drawing. -/
theorem claim_C8_witness :
    derivePlate exBoardNoDraw "B.Adhesive.Typo" "x" "s" = Except.ok none ∧
    derivePlate exBoardOneDraw "B.Adhesive.Typo" "x" "s" =
      Except.error ("unresolvable layer: " ++ "B.Adhesive.Typo") := by
  refine ⟨(@claim_C8 exBoardNoDraw "B.Adhesive.Typo" "x" "s" (by decide)).1
      rfl,
    (@claim_C8 exBoardOneDraw "B.Adhesive.Typo" "x" "s" (by decide)).2
      (by decide)⟩

/-- The artifact loop maps a never-failing generator over all boards in
order. -/
theorem processBoards_total {gen : Board → Except String Unit}
    (hg : ∀ b, gen b = Except.ok ()) (bs : List Board) :
    processBoards gen bs = Except.ok (bs.map (fun b => b.fileName)) := by
  induction bs with
  | nil => rw [processBoards]; rfl
  | cons b rest ih =>
    rw [processBoards, hg b]
    simp only [bindOk, ih, pureOk]
    rfl

/-- C9 (amended): the orchestrator hands the source board and each
successfully derived plate to artifact generation in sequence, and an
absent plate is simply skipped — partial success is a normal outcome.
However, there is no error isolation: a raised failure while generating
one board's artifacts aborts the whole run, so the remaining boards are
not processed. -/
theorem claim_C9 {board : Board} {bottom top : Option Board}
    (gen gen' : Board → Except String Unit) (e : String)
    (hB : derivePlate board "B.Adhesive"
      (pathJoin (dirName board.fileName) "../../temp") "bottom-plate" =
      Except.ok bottom)
    (hT : derivePlate board "F.Adhesive"
      (pathJoin (dirName board.fileName) "../../temp") "top-plate" =
      Except.ok top) :
    ((∀ b, gen b = Except.ok ()) →
      produce gen board =
        Except.ok ((boardsToProduce board bottom top).map
          (fun b => b.fileName))) ∧
    (gen' board = Except.error e → produce gen' board = Except.error e) := by
  constructor
  · intro hg
    simp only [produce]
    rw [hB, hT]
    simp only [bindOk]
    exact processBoards_total hg _
  · intro hg
    simp only [produce]
    rw [hB, hT]
    simp only [bindOk]
    have hbp : boardsToProduce board bottom top =
        board :: List.filterMap id [bottom, top] := rfl
    rw [hbp, processBoards, hg]
    simp

/-- Counterexample to C9 as stated: a failure while generating the source
board's artifacts aborts the entire run with that error, even though a
top plate had been successfully derived — the sibling boards are never
processed, so a failure on one board does prevent processing of the
others. -/
theorem claim_C9_cex :
    produce exGenFail exBoard = Except.error "disk full" ∧
    derivePlate exBoard "F.Adhesive"
        (pathJoin (dirName exBoard.fileName) "../../temp") "top-plate" =
      Except.ok (some exPlateTemp) := by decide

/-- Witness for C9 (amended): with a never-failing generator the sample
board and its sole (top) plate are both processed; with a failing
generator the run aborts with the generator's error. -/
theorem claim_C9_witness :
    produce exGenOk exBoard =
      Except.ok ((boardsToProduce exBoard none (some exPlateTemp)).map
        (fun b => b.fileName)) ∧
    produce exGenFail exBoard = Except.error "disk full" := by
  have h := @claim_C9 exBoard none (some exPlateTemp)
    exGenOk exGenFail "disk full" (by decide) (by decide)
  exact ⟨h.1 (fun _ => rfl), h.2 rfl⟩

/-- A string without an occurrence of the pattern is left unchanged by
the scanning replacement. -/
theorem replaceFromAux_of_not_substr {pat rep : List Char} :
    ∀ (fuel : Nat) (s : List Char), hasSubstr s pat = false →
      replaceFromAux pat rep fuel s = s := by
  intro fuel
  induction fuel with
  | zero =>
    intro s h
    cases s with
    | nil => rw [replaceFromAux]
    | cons c s' => simp only [replaceFromAux]
  | succ n ih =>
    intro s h
    cases s with
    | nil => rw [replaceFromAux]
    | cons c s' =>
      cases hp : pat with
      | nil =>
        subst hp
        rw [hasSubstr] at h
        cases h
      | cons a l =>
        subst hp
        simp only [hasSubstr] at h
        rw [Bool.or_eq_false_iff] at h
        rw [replaceFromAux, if_neg]
        · rw [ih s' h.2]
        · intro hcontra
          rw [hcontra.2] at h
          cases h.1

/-- Python `str.replace` leaves a string without the pattern
unchanged. -/
theorem strReplace_of_not_substr {s pat rep : String}
    (h : hasSubstr s.toList pat.toList = false) :
    strReplace s pat rep = s := by
  unfold strReplace replaceFrom
  rw [replaceFromAux_of_not_substr _ _ h]
  cases s
  rfl

/-- C10 (amended): the plate file name is produced by Python
`str.replace`, which substitutes **every** occurrence of `.kicad_pcb` in
the source base name (not only the first): a base name without the
substring is used unchanged (no plate suffix inserted), a surviving plate
is saved under exactly this path, and a base name containing the
substring twice receives the suffix twice. -/
theorem claim_C10 :
    (∀ fn suffix : String,
      hasSubstr (baseName fn).toList ".kicad_pcb".toList = false →
      plateFileName fn suffix = baseName fn) ∧
    (∀ (board : Board) (l o s : String) (plate : Board),
      derivePlate board l o s = Except.ok (some plate) →
      plate.fileName = platePath o board.fileName s) ∧
    plateFileName "x.kicad_pcb.kicad_pcb" "top-plate" =
      "x-top-plate.kicad_pcb-top-plate.kicad_pcb" := by
  refine ⟨?_, ?_, by decide⟩
  · intro fn suffix h
    unfold plateFileName
    exact strReplace_of_not_substr h
  · intro board l o s plate h
    exact (derivePlate_some_spec h).1

/-- Counterexample to C10 as stated: on a source file name containing
`.kicad_pcb` twice, the plate suffix is inserted before **both**
occurrences, not only before the first one. -/
theorem claim_C10_cex :
    Except.map (Option.map Board.fileName)
        (derivePlate exBoardDouble "F.Adhesive" "out" "top-plate") =
      Except.ok (some "out/x-top-plate.kicad_pcb-top-plate.kicad_pcb") ∧
    "out/x-top-plate.kicad_pcb-top-plate.kicad_pcb" ≠
      "out/x-top-plate.kicad_pcb.kicad_pcb" := by decide

/-- Witness for C10 (amended): a base name without the substring is kept
unchanged, and the sample plate is saved under the path computed from its
source's file name. -/
theorem claim_C10_witness :
    plateFileName "board.txt" "top-plate" = "board.txt" ∧
    exPlate.fileName = platePath "out" exBoard.fileName "top-plate" := by
  exact ⟨claim_C10.1 "board.txt" "top-plate" (by decide),
    claim_C10.2.1 exBoard "F.Adhesive" "out" "top-plate" exPlate (by decide)⟩

/-- Counterexample to C1 as stated: the plated through-hole pad of the
preserved-whole footprint `H1` survives into the derived plate unchanged —
it is not unplated, so not every surviving pad of a plate is an NPTH
hole. -/
theorem claim_C1_cex :
    derivePlate exBoard "F.Adhesive" "out" "top-plate" =
      Except.ok (some exPlate) ∧
    exFootH ∈ exPlate.footprints ∧
    exPadPth ∈ exFootH.pads ∧
    exPadPth.attrib ≠ PadAttrib.npth := by decide

/-- Witness for C1 (amended): on the sample board, the ordinary footprint
`R1` survives with exactly its converted circular pad, which the theorem
traces back to the source pad with all five conversion facts. -/
theorem claim_C1_witness :
    exFootRDerived ∈ exPlate.footprints ∧
    ∃ q ∈ exFootR.pads,
      q.layers.contains "F.Adhesive" = true ∧
      (q.shape = PadShape.circle ∨ q.shape = PadShape.oval) ∧
      exPadConverted.attrib = PadAttrib.npth ∧
      exPadConverted.drillShape =
        (if q.shape = PadShape.circle then DrillShape.circle
          else DrillShape.oblong) ∧
      exPadConverted.drillSize = q.size ∧
      exPadConverted.layers = unplatedHoleMask ∧
      exPadConverted.position = q.position := by
  have h := @claim_C1 exBoard "F.Adhesive" "out" "top-plate" exPlate
    exFootR exFootRDerived (by decide) (by decide) (by decide) (by decide)
  exact ⟨h.1, h.2 exPadConverted (by decide)⟩

/-- Witness for C3: the mounting-hole footprint `H1` intersects the plate
outline and appears in the derived plate unchanged. -/
theorem claim_C3_witness : exFootH ∈ exPlate.footprints := by
  exact @claim_C3 exBoard "F.Adhesive" "out" "top-plate" exPlate exFootH
    (by decide) (by decide) (by decide) (by decide)

/-- Witness for C4: the straddling ordinary footprint `R1` retains exactly
one converted pad (and one remapped graphic) and is kept — the spec's
straddling-footprint scenario. -/
theorem claim_C4_witness :
    processFootprint "F.Adhesive" (edgesBBox exPlate.drawings) exFootR =
      (if (filterFootprint "F.Adhesive" exFootR).pads.length > 0
          || (filterFootprint "F.Adhesive" exFootR).graphics.length > 0 then
        some (filterFootprint "F.Adhesive" exFootR)
      else none) ∧
    filterFootprint "F.Adhesive" exFootR ∈ exPlate.footprints := by
  have h := @claim_C4 exBoard "F.Adhesive" "out" "top-plate" exPlate exFootR
    (by decide) (by decide) (by decide) (by decide)
  exact ⟨h.1, h.2 (by decide)⟩

/-- Witness for C5: on the sample board, the adhesive-layer shape is
copied to the plate remapped to the edge-cut layer and the silkscreen text
is copied unchanged, in source order. -/
theorem claim_C5_witness :
    exPlate.drawings =
      exBoard.drawings.filterMap (copyDrawing "F.Adhesive") ∧
    ({ exDraw with layer := "Edge.Cuts" } : Drawing) ∈ exPlate.drawings ∧
    exText ∈ exPlate.drawings := by
  have h := @claim_C5 exBoard "F.Adhesive" "out" "top-plate" exPlate
    (by decide)
  exact ⟨h.1, h.2.1 exDraw (by decide) (by decide) (by decide),
    h.2.2.1 exText (by decide) (by decide) (Or.inl (by decide))⟩

/-- Witness for C6: the derived footprint of `R1` falls into the ordinary
case — its surviving pad is an NPTH hole and its surviving graphic lies on
the edge-cut layer. -/
theorem claim_C6_witness :
    (∃ f ∈ exBoard.footprints,
      isPreservedRef f.reference = true ∧ exFootRDerived = f) ∨
    ((∀ p ∈ exFootRDerived.pads, p.attrib = PadAttrib.npth) ∧
      (∀ g ∈ exFootRDerived.graphics, g.layer = "Edge.Cuts")) := by
  exact @claim_C6 exBoard "F.Adhesive" "out" "top-plate" exPlate
    exFootRDerived (by decide) (by decide)

/-! ## Frame lemmas for the allocation model

Each phase of the heap-level derivation writes only through freshly
allocated indices: every cell that existed before the phase is left
exactly as it was. -/

theorem copyDrawingsH_spec {plate : Board} {l : String} {hp : Heap}
    {ids : List Nat} {hp' : Heap} {out : List Nat}
    (h : copyDrawingsH plate l hp ids = Except.ok (hp', out)) :
    hp'.pads = hp.pads ∧ hp'.graphics = hp.graphics ∧
    hp.drawings.length ≤ hp'.drawings.length ∧
    (∀ k, k < hp.drawings.length → hp'.drawings[k]? = hp.drawings[k]?) ∧
    (∀ j ∈ out, hp.drawings.length ≤ j) := by
  induction ids generalizing hp hp' out with
  | nil =>
    rw [copyDrawingsH] at h
    cases h
    exact ⟨rfl, rfl, le_refl _, fun k _ => rfl, by simp⟩
  | cons i rest ih =>
    rw [copyDrawingsH] at h
    simp only [Heap.allocDrawing] at h
    rcases getLayerID_dichotomy plate l with href | href <;> rw [href] at h
    · simp only [bindOk] at h
      split at h
      next hcond =>
        rcases getLayerID_dichotomy plate "Edge.Cuts" with hedge | hedge <;>
          rw [hedge] at h
        · simp only [bindOk] at h
          cases hrec : copyDrawingsH plate l
              (Heap.setDrawingLayer
                { hp with drawings := hp.drawings ++ [hp.drawingAt i] }
                hp.drawings.length "Edge.Cuts") rest <;> rw [hrec] at h
          · simp at h
          next p =>
            obtain ⟨hp3, tl⟩ := p
            simp only [bindOk, pureOk, Except.ok.injEq, Prod.mk.injEq] at h
            obtain ⟨rfl, rfl⟩ := h
            obtain ⟨hpads, hgr, hlen, hpre, hfresh⟩ := ih hrec
            have hlen' : hp.drawings.length + 1 ≤ hp3.drawings.length := by
              simpa [Heap.setDrawingLayer] using hlen
            refine ⟨hpads, hgr, by omega, ?_, ?_⟩
            · intro k hk
              rw [hpre k (by simp [Heap.setDrawingLayer]; omega)]
              simp only [Heap.setDrawingLayer]
              rw [List.getElem?_set_ne (by omega)]
              exact List.getElem?_append_left hk
            · intro j hj
              rw [List.mem_cons] at hj
              rcases hj with rfl | hj
              · exact le_refl _
              · have hj2 := hfresh j hj
                simp only [Heap.setDrawingLayer, List.length_set,
                  List.length_append, List.length_cons,
                  List.length_nil] at hj2
                omega
        · simp at h
      next hcond =>
        rcases getLayerID_dichotomy plate "F.Silkscreen" with hf | hf <;>
          rw [hf] at h
        · rcases getLayerID_dichotomy plate "B.Silkscreen" with hb | hb <;>
            rw [hb] at h
          · simp only [bindOk] at h
            split at h
            next hcond2 =>
              cases hrec : copyDrawingsH plate l
                  { hp with drawings := hp.drawings ++ [hp.drawingAt i] }
                  rest <;> rw [hrec] at h
              · simp at h
              next p =>
                obtain ⟨hp3, tl⟩ := p
                simp only [bindOk, pureOk, Except.ok.injEq,
                  Prod.mk.injEq] at h
                obtain ⟨rfl, rfl⟩ := h
                obtain ⟨hpads, hgr, hlen, hpre, hfresh⟩ := ih hrec
                have hlen' : hp.drawings.length + 1 ≤ hp3.drawings.length := by
                  simpa using hlen
                refine ⟨hpads, hgr, by omega, ?_, ?_⟩
                · intro k hk
                  rw [hpre k (by simp; omega)]
                  exact List.getElem?_append_left hk
                · intro j hj
                  rw [List.mem_cons] at hj
                  rcases hj with rfl | hj
                  · exact le_refl _
                  · have hj2 := hfresh j hj
                    simp only [List.length_append, List.length_cons,
                      List.length_nil] at hj2
                    omega
            next hcond2 =>
              cases hrec : copyDrawingsH plate l
                  { hp with drawings := hp.drawings ++ [hp.drawingAt i] }
                  rest <;> rw [hrec] at h
              · simp at h
              next p =>
                obtain ⟨hp3, tl⟩ := p
                simp only [bindOk, pureOk, Except.ok.injEq,
                  Prod.mk.injEq] at h
                obtain ⟨rfl, rfl⟩ := h
                obtain ⟨hpads, hgr, hlen, hpre, hfresh⟩ := ih hrec
                have hlen' : hp.drawings.length + 1 ≤ hp3.drawings.length := by
                  simpa using hlen
                refine ⟨hpads, hgr, by omega, ?_, ?_⟩
                · intro k hk
                  rw [hpre k (by simp; omega)]
                  exact List.getElem?_append_left hk
                · intro j hj
                  have hj2 := hfresh j hj
                  simp only [List.length_append, List.length_cons,
                    List.length_nil] at hj2
                  omega
          · simp at h
        · simp at h
    · simp at h

theorem convertPadsH_spec {plate : Board} {l : String} {hp : Heap}
    {ids : List Nat} {hp' : Heap} {out : List Nat}
    (h : convertPadsH plate l hp ids = Except.ok (hp', out)) :
    hp'.drawings = hp.drawings ∧ hp'.graphics = hp.graphics ∧
    hp'.pads.length = hp.pads.length ∧
    (∀ k, (∀ i ∈ ids, k ≠ i) → hp'.pads[k]? = hp.pads[k]?) ∧
    (∀ i ∈ out, i ∈ ids) := by
  induction ids generalizing hp hp' out with
  | nil =>
    rw [convertPadsH] at h
    cases h
    exact ⟨rfl, rfl, rfl, fun k _ => rfl, by simp⟩
  | cons i rest ih =>
    rw [convertPadsH] at h
    rcases getLayerID_dichotomy plate l with href | href <;> rw [href] at h
    · simp only [bindOk] at h
      split at h
      next hcond =>
        cases hrec : convertPadsH plate l (hp.convertPadAt i) rest <;>
          rw [hrec] at h
        · simp at h
        next p =>
          obtain ⟨hp2, tl⟩ := p
          simp only [bindOk, pureOk, Except.ok.injEq, Prod.mk.injEq] at h
          obtain ⟨rfl, rfl⟩ := h
          obtain ⟨hd, hg, hlen, hpre, hsub⟩ := ih hrec
          have hlen0 : (hp.convertPadAt i).pads.length = hp.pads.length := by
            simp [Heap.convertPadAt]
          refine ⟨hd, hg, by omega, ?_, ?_⟩
          · intro k hk
            rw [hpre k (fun i' hi' => hk i' (List.mem_cons_of_mem i hi'))]
            simp only [Heap.convertPadAt]
            rw [List.getElem?_set_ne
              (Ne.symm (hk i (List.mem_cons_self i rest)))]
          · intro x hx
            rw [List.mem_cons] at hx
            rcases hx with rfl | hx
            · exact List.mem_cons_self x rest
            · exact List.mem_cons_of_mem i (hsub x hx)
      next hcond =>
        cases hrec : convertPadsH plate l hp rest <;> rw [hrec] at h
        · simp at h
        next p =>
          obtain ⟨hp2, tl⟩ := p
          simp only [bindOk, pureOk, Except.ok.injEq, Prod.mk.injEq] at h
          obtain ⟨rfl, rfl⟩ := h
          obtain ⟨hd, hg, hlen, hpre, hsub⟩ := ih hrec
          refine ⟨hd, hg, hlen, ?_, ?_⟩
          · intro k hk
            exact hpre k (fun i' hi' => hk i' (List.mem_cons_of_mem i hi'))
          · intro x hx
            exact List.mem_cons_of_mem i (hsub x hx)
    · simp at h

theorem convertGraphicsH_spec {plate : Board} {l : String} {hp : Heap}
    {ids : List Nat} {hp' : Heap} {out : List Nat}
    (h : convertGraphicsH plate l hp ids = Except.ok (hp', out)) :
    hp'.drawings = hp.drawings ∧ hp'.pads = hp.pads ∧
    hp'.graphics.length = hp.graphics.length ∧
    (∀ k, (∀ i ∈ ids, k ≠ i) → hp'.graphics[k]? = hp.graphics[k]?) ∧
    (∀ i ∈ out, i ∈ ids) := by
  induction ids generalizing hp hp' out with
  | nil =>
    rw [convertGraphicsH] at h
    cases h
    exact ⟨rfl, rfl, rfl, fun k _ => rfl, by simp⟩
  | cons i rest ih =>
    rw [convertGraphicsH] at h
    rcases getLayerID_dichotomy plate l with href | href <;> rw [href] at h
    · simp only [bindOk] at h
      split at h
      next hcond =>
        rcases getLayerID_dichotomy plate "Edge.Cuts" with hedge | hedge <;>
          rw [hedge] at h
        · simp only [bindOk] at h
          cases hrec : convertGraphicsH plate l
              (hp.setGraphicLayer i "Edge.Cuts") rest <;> rw [hrec] at h
          · simp at h
          next p =>
            obtain ⟨hp2, tl⟩ := p
            simp only [bindOk, pureOk, Except.ok.injEq, Prod.mk.injEq] at h
            obtain ⟨rfl, rfl⟩ := h
            obtain ⟨hd, hpads, hlen, hpre, hsub⟩ := ih hrec
            have hlen0 : (hp.setGraphicLayer i "Edge.Cuts").graphics.length
                = hp.graphics.length := by
              simp [Heap.setGraphicLayer]
            refine ⟨hd, hpads, by omega, ?_, ?_⟩
            · intro k hk
              rw [hpre k (fun i' hi' => hk i' (List.mem_cons_of_mem i hi'))]
              simp only [Heap.setGraphicLayer]
              rw [List.getElem?_set_ne
                (Ne.symm (hk i (List.mem_cons_self i rest)))]
            · intro x hx
              rw [List.mem_cons] at hx
              rcases hx with rfl | hx
              · exact List.mem_cons_self x rest
              · exact List.mem_cons_of_mem i (hsub x hx)
        · simp at h
      next hcond =>
        cases hrec : convertGraphicsH plate l hp rest <;> rw [hrec] at h
        · simp at h
        next p =>
          obtain ⟨hp2, tl⟩ := p
          simp only [bindOk, pureOk, Except.ok.injEq, Prod.mk.injEq] at h
          obtain ⟨rfl, rfl⟩ := h
          obtain ⟨hd, hpads, hlen, hpre, hsub⟩ := ih hrec
          refine ⟨hd, hpads, hlen, ?_, ?_⟩
          · intro k hk
            exact hpre k (fun i' hi' => hk i' (List.mem_cons_of_mem i hi'))
          · intro x hx
            exact List.mem_cons_of_mem i (hsub x hx)
    · simp at h

theorem dupFootprintH_spec (hp : Heap) (f : FootprintRef) :
    (dupFootprintH hp f).1.drawings = hp.drawings ∧
    hp.pads.length ≤ (dupFootprintH hp f).1.pads.length ∧
    hp.graphics.length ≤ (dupFootprintH hp f).1.graphics.length ∧
    (∀ k, k < hp.pads.length →
      (dupFootprintH hp f).1.pads[k]? = hp.pads[k]?) ∧
    (∀ k, k < hp.graphics.length →
      (dupFootprintH hp f).1.graphics[k]? = hp.graphics[k]?) ∧
    (∀ i ∈ (dupFootprintH hp f).2.padIds, hp.pads.length ≤ i) ∧
    (∀ i ∈ (dupFootprintH hp f).2.graphicIds, hp.graphics.length ≤ i) ∧
    (dupFootprintH hp f).2.reference = f.reference := by
  unfold dupFootprintH Heap.allocPads Heap.allocGraphics
  refine ⟨rfl, by simp, by simp, ?_, ?_, ?_, ?_, rfl⟩
  · intro k hk
    exact List.getElem?_append_left hk
  · intro k hk
    exact List.getElem?_append_left hk
  · intro i hi
    exact (List.mem_range'_1.mp hi).1
  · intro i hi
    exact (List.mem_range'_1.mp hi).1

theorem copyFootprintsH_spec {plate : Board} {l : String} {bounds : BBox}
    {hp : Heap} {fs : List FootprintRef} {hp' : Heap}
    {out : List FootprintRef}
    (h : copyFootprintsH plate l bounds hp fs = Except.ok (hp', out)) :
    hp'.drawings = hp.drawings ∧
    hp.pads.length ≤ hp'.pads.length ∧
    hp.graphics.length ≤ hp'.graphics.length ∧
    (∀ k, k < hp.pads.length → hp'.pads[k]? = hp.pads[k]?) ∧
    (∀ k, k < hp.graphics.length → hp'.graphics[k]? = hp.graphics[k]?) ∧
    (∀ f' ∈ out, (∀ i ∈ f'.padIds, hp.pads.length ≤ i) ∧
      (∀ i ∈ f'.graphicIds, hp.graphics.length ≤ i)) := by
  induction fs generalizing hp hp' out with
  | nil =>
    rw [copyFootprintsH] at h
    cases h
    exact ⟨rfl, le_refl _, le_refl _, fun _ _ => rfl, fun _ _ => rfl,
      by simp⟩
  | cons f rest ih =>
    rw [copyFootprintsH] at h
    split at h
    next hint =>
      split at h
      next hp1 f' hdup =>
      have hd : hp1.drawings = hp.drawings ∧
          hp.pads.length ≤ hp1.pads.length ∧
          hp.graphics.length ≤ hp1.graphics.length ∧
          (∀ k, k < hp.pads.length → hp1.pads[k]? = hp.pads[k]?) ∧
          (∀ k, k < hp.graphics.length →
            hp1.graphics[k]? = hp.graphics[k]?) ∧
          (∀ i ∈ f'.padIds, hp.pads.length ≤ i) ∧
          (∀ i ∈ f'.graphicIds, hp.graphics.length ≤ i) ∧
          f'.reference = f.reference := by
        have hd0 := dupFootprintH_spec hp f
        rw [hdup] at hd0
        exact hd0
      obtain ⟨hdD, hdPL, hdGL, hdP, hdG, hdFP, hdFG, -⟩ := hd
      split at h
      next hpres =>
        cases hrec : copyFootprintsH plate l bounds hp1 rest <;>
          rw [hrec] at h
        · simp at h
        next p =>
          obtain ⟨hp2, tl⟩ := p
          simp only [bindOk, pureOk, Except.ok.injEq, Prod.mk.injEq] at h
          obtain ⟨rfl, rfl⟩ := h
          obtain ⟨ihD, ihPL, ihGL, ihP, ihG, ihF⟩ := ih hrec
          refine ⟨ihD.trans hdD, le_trans hdPL ihPL, le_trans hdGL ihGL,
            ?_, ?_, ?_⟩
          · intro k hk
            rw [ihP k (by omega), hdP k hk]
          · intro k hk
            rw [ihG k (by omega), hdG k hk]
          · intro g hg
            rw [List.mem_cons] at hg
            rcases hg with rfl | hg
            · exact ⟨hdFP, hdFG⟩
            · obtain ⟨h1, h2⟩ := ihF g hg
              exact ⟨fun i hi => le_trans hdPL (h1 i hi),
                fun i hi => le_trans hdGL (h2 i hi)⟩
      next hpres =>
        cases hps : convertPadsH plate l hp1 f'.padIds <;> rw [hps] at h
        · simp at h
        next p2 =>
          obtain ⟨hp2, pids⟩ := p2
          simp only [bindOk] at h
          cases hgs : convertGraphicsH plate l hp2 f'.graphicIds <;>
            rw [hgs] at h
          · simp at h
          next p3 =>
            obtain ⟨hp3, gids⟩ := p3
            simp only [bindOk] at h
            obtain ⟨psD, psG, psL, psP, psSub⟩ := convertPadsH_spec hps
            obtain ⟨gsD, gsP, gsL, gsG, gsSub⟩ := convertGraphicsH_spec hgs
            have hp2P : ∀ k, k < hp.pads.length →
                hp2.pads[k]? = hp.pads[k]? := by
              intro k hk
              rw [psP k (fun i hi => by have := hdFP i hi; omega), hdP k hk]
            have hp3P : ∀ k, k < hp.pads.length →
                hp3.pads[k]? = hp.pads[k]? := by
              intro k hk
              rw [gsP, hp2P k hk]
            have hp3G : ∀ k, k < hp.graphics.length →
                hp3.graphics[k]? = hp.graphics[k]? := by
              intro k hk
              rw [gsG k (fun i hi => by have := hdFG i hi; omega), psG,
                hdG k hk]
            have hp3PL : hp.pads.length ≤ hp3.pads.length := by
              rw [gsP, psL]
              exact hdPL
            have hp3GL : hp.graphics.length ≤ hp3.graphics.length := by
              rw [gsL, psG]
              exact hdGL
            have hp3D : hp3.drawings = hp.drawings := by
              rw [gsD, psD, hdD]
            split at h
            next hne =>
              cases hrec : copyFootprintsH plate l bounds hp3 rest <;>
                rw [hrec] at h
              · simp at h
              next p4 =>
                obtain ⟨hp4, tl⟩ := p4
                simp only [bindOk, pureOk, Except.ok.injEq,
                  Prod.mk.injEq] at h
                obtain ⟨rfl, rfl⟩ := h
                obtain ⟨ihD, ihPL, ihGL, ihP, ihG, ihF⟩ := ih hrec
                refine ⟨ihD.trans hp3D, le_trans hp3PL ihPL,
                  le_trans hp3GL ihGL, ?_, ?_, ?_⟩
                · intro k hk
                  rw [ihP k (by omega), hp3P k hk]
                · intro k hk
                  rw [ihG k (by omega), hp3G k hk]
                · intro g hg
                  rw [List.mem_cons] at hg
                  rcases hg with rfl | hg
                  · exact ⟨fun i hi => hdFP i (psSub i hi),
                      fun i hi => hdFG i (gsSub i hi)⟩
                  · obtain ⟨h1, h2⟩ := ihF g hg
                    exact ⟨fun i hi => le_trans hp3PL (h1 i hi),
                      fun i hi => le_trans hp3GL (h2 i hi)⟩
            next hne =>
              cases hrec : copyFootprintsH plate l bounds hp3 rest <;>
                rw [hrec] at h
              · simp at h
              next p4 =>
                obtain ⟨hp4, tl⟩ := p4
                simp only [bindOk, pureOk, Except.ok.injEq,
                  Prod.mk.injEq] at h
                obtain ⟨rfl, rfl⟩ := h
                obtain ⟨ihD, ihPL, ihGL, ihP, ihG, ihF⟩ := ih hrec
                refine ⟨ihD.trans hp3D, le_trans hp3PL ihPL,
                  le_trans hp3GL ihGL, ?_, ?_, ?_⟩
                · intro k hk
                  rw [ihP k (by omega), hp3P k hk]
                · intro k hk
                  rw [ihG k (by omega), hp3G k hk]
                · intro g hg
                  obtain ⟨h1, h2⟩ := ihF g hg
                  exact ⟨fun i hi => le_trans hp3PL (h1 i hi),
                    fun i hi => le_trans hp3GL (h2 i hi)⟩
    next hint =>
      cases hrec : copyFootprintsH plate l bounds hp rest <;> rw [hrec] at h
      · simp at h
      next p =>
        obtain ⟨hp2, tl⟩ := p
        simp only [bindOk, pureOk, Except.ok.injEq, Prod.mk.injEq] at h
        obtain ⟨rfl, rfl⟩ := h
        exact ih hrec

/-- A board whose cells are all untouched denotes the same board
value. -/
theorem derefBoard_invariant {hp hp' : Heap} {b : BoardRef}
    (hv : validBoardRef hp b)
    (hd : ∀ k, k < hp.drawings.length → hp'.drawings[k]? = hp.drawings[k]?)
    (hpads : ∀ k, k < hp.pads.length → hp'.pads[k]? = hp.pads[k]?)
    (hg : ∀ k, k < hp.graphics.length → hp'.graphics[k]? = hp.graphics[k]?) :
    derefBoard hp' b = derefBoard hp b := by
  obtain ⟨hv1, hv2⟩ := hv
  unfold derefBoard
  have h1 : b.drawingIds.map hp'.drawingAt = b.drawingIds.map hp.drawingAt := by
    apply List.map_congr_left
    intro i hi
    unfold Heap.drawingAt
    rw [List.getD_eq_getElem?_getD, List.getD_eq_getElem?_getD,
      hd i (hv1 i hi)]
  have h2 : b.footprints.map (derefFootprint hp')
      = b.footprints.map (derefFootprint hp) := by
    apply List.map_congr_left
    intro f hf
    obtain ⟨hfp, hfg⟩ := hv2 f hf
    unfold derefFootprint
    have h3 : f.padIds.map hp'.padAt = f.padIds.map hp.padAt := by
      apply List.map_congr_left
      intro i hi
      unfold Heap.padAt
      rw [List.getD_eq_getElem?_getD, List.getD_eq_getElem?_getD,
        hpads i (hfp i hi)]
    have h4 : f.graphicIds.map hp'.graphicAt
        = f.graphicIds.map hp.graphicAt := by
      apply List.map_congr_left
      intro i hi
      unfold Heap.graphicAt
      rw [List.getD_eq_getElem?_getD, List.getD_eq_getElem?_getD,
        hg i (hfg i hi)]
    rw [h3, h4]
  rw [h1, h2]

/-- C7: plate derivation never mutates the source board.  Every heap cell
that existed before the run holds exactly its old value afterwards, so
the source board denotes the same value before and after; and the derived
plate references only freshly allocated cells — it shares no drawing,
pad, or graphical-item entity with the source board.  (Duplication is
modelled from the spec as fresh allocation, per spec §4.2/§9: `Duplicate`
and the `FOOTPRINT` copy constructor yield independently owned copies.) -/
theorem claim_C7 {hp : Heap} {board : BoardRef} {l o s : String}
    {hp' : Heap} {res : Option BoardRef}
    (h : derivePlateH hp board l o s = Except.ok (hp', res)) :
    (∀ k, k < hp.drawings.length → hp'.drawings[k]? = hp.drawings[k]?) ∧
    (∀ k, k < hp.pads.length → hp'.pads[k]? = hp.pads[k]?) ∧
    (∀ k, k < hp.graphics.length → hp'.graphics[k]? = hp.graphics[k]?) ∧
    (validBoardRef hp board → derefBoard hp' board = derefBoard hp board) ∧
    (∀ pr, res = some pr →
      (∀ i ∈ pr.drawingIds, hp.drawings.length ≤ i) ∧
      (∀ f' ∈ pr.footprints,
        (∀ i ∈ f'.padIds, hp.pads.length ≤ i) ∧
        (∀ i ∈ f'.graphicIds, hp.graphics.length ≤ i))) := by
  simp only [derivePlateH] at h
  cases hdr : copyDrawingsH (newBoard (platePath o board.fileName s)) l hp
      board.drawingIds <;> rw [hdr] at h
  · simp at h
  next p =>
    obtain ⟨hp1, dids⟩ := p
    simp only [bindOk] at h
    obtain ⟨drP, drG, drL, drPre, drFresh⟩ := copyDrawingsH_spec hdr
    split at h
    next hzero =>
      simp only [pureOk, Except.ok.injEq, Prod.mk.injEq] at h
      obtain ⟨rfl, rfl⟩ := h
      refine ⟨drPre, ?_, ?_, ?_, ?_⟩
      · intro k hk
        rw [drP]
      · intro k hk
        rw [drG]
      · intro hv
        exact derefBoard_invariant hv drPre (fun k _ => by rw [drP])
          (fun k _ => by rw [drG])
      · intro pr hpr
        cases hpr
    next hzero =>
      cases hfs : copyFootprintsH (newBoard (platePath o board.fileName s))
          l (edgesBBox (dids.map hp1.drawingAt)) hp1 board.footprints <;>
        rw [hfs] at h
      · simp at h
      next p2 =>
        obtain ⟨hp2, fps⟩ := p2
        simp only [bindOk, pureOk, Except.ok.injEq, Prod.mk.injEq] at h
        obtain ⟨rfl, rfl⟩ := h
        obtain ⟨fsD, fsPL, fsGL, fsP, fsG, fsF⟩ := copyFootprintsH_spec hfs
        have hplen : hp1.pads.length = hp.pads.length := by rw [drP]
        have hglen : hp1.graphics.length = hp.graphics.length := by rw [drG]
        have hPre : ∀ k, k < hp.drawings.length →
            hp2.drawings[k]? = hp.drawings[k]? := by
          intro k hk
          rw [fsD]
          exact drPre k hk
        have hPads : ∀ k, k < hp.pads.length →
            hp2.pads[k]? = hp.pads[k]? := by
          intro k hk
          rw [fsP k (by omega), drP]
        have hGr : ∀ k, k < hp.graphics.length →
            hp2.graphics[k]? = hp.graphics[k]? := by
          intro k hk
          rw [fsG k (by omega), drG]
        refine ⟨hPre, hPads, hGr,
          fun hv => derefBoard_invariant hv hPre hPads hGr, ?_⟩
        intro pr hpr
        cases hpr
        refine ⟨drFresh, ?_⟩
        intro f' hf'
        obtain ⟨h1, h2⟩ := fsF f' hf'
        exact ⟨fun i hi => by have := h1 i hi; omega,
          fun i hi => by have := h2 i hi; omega⟩

/-- Witness for C7: on the sample heap, deriving the top plate leaves the
source board's denotation untouched, and the derived plate's drawings all
live in freshly allocated cells. -/
theorem claim_C7_witness :
    derefBoard exHeapAfter exBoardRef = derefBoard exHeap exBoardRef ∧
    (∀ i ∈ exPlateRef.drawingIds, exHeap.drawings.length ≤ i) := by
  have h := @claim_C7 exHeap exBoardRef "F.Adhesive" "out" "top-plate"
    exHeapAfter (some exPlateRef) (by decide)
  exact ⟨h.2.2.2.1 (by decide), (h.2.2.2.2 exPlateRef rfl).1⟩

end HorizonBoardProducer
